import Mathlib

/-!
# A verification development for the sigbak backup-file engine

This file gives a shallow embedding, in Lean 4, of the core of sigbak: the
hand-written protobuf decoder (`backup.pb-c.c`), the framed crypto stream
reader, the replay engine and the semantic helpers of `sbk.c`.  Bytes are
modelled as natural numbers (`List Nat`), machine integers as `Nat`/`Int`
with explicit reductions modulo powers of two where the C code can overflow,
and fallible C functions as `Option`/`Except String` (carrying the same error
strings that the C code installs with `sbk_error_setx`).

The OpenSSL primitives (SHA-512, HMAC-SHA-256, HKDF and the AES-256-CTR
keystream) are external to the repository; they are modelled as parameters:
an abstract `Crypto` bundle containing the HMAC (with the MAC key baked in)
and the CTR keystream (with the cipher key and the IV tail baked in), and
abstract hash arguments for the key-derivation function.  Heap exhaustion
(`malloc` failure) and I/O errors other than end-of-file are not modelled.
-/

namespace Sigbak

/-- Decidable equality for `Except`, so that concrete runs of the fallible
functions below can be checked by `decide`. -/
instance exceptDecEq {ε α : Type} [DecidableEq ε] [DecidableEq α] :
    DecidableEq (Except ε α) := fun a b =>
  match a, b with
  | .error e, .error f =>
    if h : e = f then isTrue (by rw [h])
    else isFalse fun hh => h (Except.error.inj hh)
  | .ok x, .ok y =>
    if h : x = y then isTrue (by rw [h])
    else isFalse fun hh => h (Except.ok.inj hh)
  | .error _, .ok _ => isFalse fun hh => Except.noConfusion hh
  | .ok _, .error _ => isFalse fun hh => Except.noConfusion hh

/-! ## Protobuf wire primitives (from `backup.pb-c.c`) -/

/-- `varint_unpack` (backup.pb-c.c): decode a base-128 varint.  Returns the
value and the number of bytes consumed, or `none` where the C code returns 0
(empty input, unterminated varint, or more than 10 bytes).  The accumulator
is a C `uint64_t`, hence the reduction modulo `2 ^ 64`. -/
def varintLoop (buf : List Nat) (i acc : Nat) : Option (Nat × Nat) :=
  match buf with
  | [] => none
  | b :: rest =>
    if i * 7 < 64 then
      let acc' := (acc ||| ((b &&& 0x7f) <<< (i * 7))) % 2 ^ 64
      if b &&& 0x80 = 0 then some (acc', i + 1) else varintLoop rest (i + 1) acc'
    else none

def varint_unpack (buf : List Nat) : Option (Nat × Nat) :=
  varintLoop buf 0 0

/-- `tag_unpack`: decode a field tag.  Returns `(fieldnum, wiretype, bytes consumed)`. -/
def tag_unpack (buf : List Nat) : Option (Nat × Nat × Nat) :=
  match varint_unpack buf with
  | none => none
  | some (v, n) => if v > 4294967295 then none else some (v >>> 3, v &&& 7, n)

/-- `fieldlen_unpack`: decode the length prefix of a length-delimited field and
check that the remaining buffer can hold it. -/
def fieldlen_unpack (buf : List Nat) : Option (Nat × Nat) :=
  match varint_unpack buf with
  | none => none
  | some (v, n) => if v > buf.length - n then none else some (v, n)

/-- `bool_unpack`: a varint interpreted as a boolean (`varint != 0`). -/
def bool_unpack (buf : List Nat) : Option (Bool × Nat) :=
  match varint_unpack buf with
  | none => none
  | some (v, n) => some (v ≠ 0, n)

/-- `uint32_unpack`: a varint that must fit in 32 bits. -/
def uint32_unpack (buf : List Nat) : Option (Nat × Nat) :=
  match varint_unpack buf with
  | none => none
  | some (v, n) => if v > 4294967295 then none else some (v, n)

/-- `uint64_unpack` is `varint_unpack`. -/
def uint64_unpack (buf : List Nat) : Option (Nat × Nat) :=
  varint_unpack buf

/-- `fixed64_unpack`: eight little-endian bytes. -/
def fixed64_unpack (buf : List Nat) : Option (Nat × Nat) :=
  match buf with
  | b0 :: b1 :: b2 :: b3 :: b4 :: b5 :: b6 :: b7 :: _ =>
    some (b0 ||| b1 <<< 8 ||| b2 <<< 16 ||| b3 <<< 24 |||
          b4 <<< 32 ||| b5 <<< 40 ||| b6 <<< 48 ||| b7 <<< 56, 8)
  | _ => none

/-- `double_unpack`: the C code reinterprets the fixed64 bit pattern as a
`double`; floating point is not modelled, the raw 64-bit pattern is kept. -/
def double_unpack (buf : List Nat) : Option (Nat × Nat) :=
  fixed64_unpack buf

/-- `string_unpack`: copy `fieldlen` bytes and append a terminating NUL.
Strings are modelled as their NUL-free byte contents; the only C failure modes
are `malloc` failure and `buflen == SIZE_MAX`, which are not modelled. -/
def string_unpack (fieldlen : Nat) (buf : List Nat) : List Nat :=
  buf.take fieldlen

/-- `binarydata_unpack`: copy `fieldlen` bytes.  The C function returns
`buflen`, and every caller treats a return of 0 — in particular an *empty*
field — as a parse error, so the empty case is `none` here. -/
def binarydata_unpack (fieldlen : Nat) (buf : List Nat) : Option (List Nat) :=
  if fieldlen = 0 then none else some (buf.take fieldlen)

/-! ## Protobuf message types (from `backup.pb-c.h` / `backup.pb-c.c`)

Each optional C field pair `has_x`/`x` (or nullable pointer `x`) is modelled
as a single `Option`. -/

structure Header where
  iv : Option (List Nat)
  salt : Option (List Nat)
deriving Repr, DecidableEq

/-- `Signal__SqlStatement__SqlParameter`.  The field name `stringparamter`
keeps the source's spelling.  `doubleparameter` stores the raw 64-bit
pattern. -/
structure SqlParameter where
  stringparamter : Option (List Nat)
  integerparameter : Option Nat
  doubleparameter : Option Nat
  blobparameter : Option (List Nat)
  nullparameter : Option Bool
deriving Repr, DecidableEq

structure SqlStatement where
  statement : Option (List Nat)
  parameters : List SqlParameter
deriving Repr, DecidableEq

structure SharedPreference where
  file : Option (List Nat)
  key : Option (List Nat)
  value : Option (List Nat)
deriving Repr, DecidableEq

structure Attachment where
  rowid : Option Nat
  attachmentid : Option Nat
  length : Option Nat
deriving Repr, DecidableEq

structure DatabaseVersion where
  version : Option Nat
deriving Repr, DecidableEq

structure Avatar where
  name : Option (List Nat)
  length : Option Nat
  recipientid : Option (List Nat)
deriving Repr, DecidableEq

structure Sticker where
  rowid : Option Nat
  length : Option Nat
deriving Repr, DecidableEq

/-- `Signal__BackupFrame`.  `endb` models the `has_end`/`end` pair. -/
structure BackupFrame where
  header : Option Header
  statement : Option SqlStatement
  preference : Option SharedPreference
  attachment : Option Attachment
  version : Option DatabaseVersion
  endb : Option Bool
  avatar : Option Avatar
  sticker : Option Sticker
deriving Repr, DecidableEq

/-! ## Protobuf message decoding loops

Each mirrors one `while (buflen > 0)` loop of `backup.pb-c.c`: decode a tag,
reject a duplicate occurrence of a field already seen, check the wire type,
decode the body, continue on the rest of the buffer.  An unknown field number
is an error (the `default:` arm). -/

/-- The `while (buflen > 0)` loop of `signal__header__unpack`.  The extra
`fuel` argument makes the recursion structural; every loop iteration consumes
at least one byte, so `fuel = buf.length` (as passed by the top-level
function) never runs out, and the `fuel = 0` artifact arm is unreachable. -/
def headerLoop : Nat → List Nat → Header → Option Header
  | _, [], hdr => some hdr
  | 0, _ :: _, _ => none
  | fuel + 1, buf@(_ :: _), hdr =>
    match tag_unpack buf with
    | none => none
    | some (fieldnum, wiretype, n) =>
      let buf1 := buf.drop n
      if fieldnum = 1 then
        if hdr.iv.isSome then none
        else if wiretype ≠ 2 then none
        else match fieldlen_unpack buf1 with
          | none => none
          | some (fieldlen, m) =>
            let buf2 := buf1.drop m
            match binarydata_unpack fieldlen buf2 with
            | none => none
            | some bin => headerLoop fuel (buf2.drop fieldlen) { hdr with iv := some bin }
      else if fieldnum = 2 then
        if hdr.salt.isSome then none
        else if wiretype ≠ 2 then none
        else match fieldlen_unpack buf1 with
          | none => none
          | some (fieldlen, m) =>
            let buf2 := buf1.drop m
            match binarydata_unpack fieldlen buf2 with
            | none => none
            | some bin => headerLoop fuel (buf2.drop fieldlen) { hdr with salt := some bin }
      else none

def signal__header__unpack (buf : List Nat) : Option Header :=
  headerLoop buf.length buf ⟨none, none⟩

/-- The loop of `signal__sql_statement__sql_parameter__unpack`. -/
def sqlParameterLoop : Nat → List Nat → SqlParameter → Option SqlParameter
  | _, [], par => some par
  | 0, _ :: _, _ => none
  | fuel + 1, buf@(_ :: _), par =>
    match tag_unpack buf with
    | none => none
    | some (fieldnum, wiretype, n) =>
      let buf1 := buf.drop n
      if fieldnum = 1 then
        if par.stringparamter.isSome then none
        else if wiretype ≠ 2 then none
        else match fieldlen_unpack buf1 with
          | none => none
          | some (fieldlen, m) =>
            let buf2 := buf1.drop m
            sqlParameterLoop fuel (buf2.drop fieldlen)
              { par with stringparamter := some (string_unpack fieldlen buf2) }
      else if fieldnum = 2 then
        if par.integerparameter.isSome then none
        else if wiretype ≠ 0 then none
        else match uint64_unpack buf1 with
          | none => none
          | some (v, m) =>
            sqlParameterLoop fuel (buf1.drop m) { par with integerparameter := some v }
      else if fieldnum = 3 then
        if par.doubleparameter.isSome then none
        else if wiretype ≠ 1 then none
        else match double_unpack buf1 with
          | none => none
          | some (v, m) =>
            sqlParameterLoop fuel (buf1.drop m) { par with doubleparameter := some v }
      else if fieldnum = 4 then
        if par.blobparameter.isSome then none
        else if wiretype ≠ 2 then none
        else match fieldlen_unpack buf1 with
          | none => none
          | some (fieldlen, m) =>
            let buf2 := buf1.drop m
            match binarydata_unpack fieldlen buf2 with
            | none => none
            | some bin =>
              sqlParameterLoop fuel (buf2.drop fieldlen) { par with blobparameter := some bin }
      else if fieldnum = 5 then
        if par.nullparameter.isSome then none
        else if wiretype ≠ 0 then none
        else match bool_unpack buf1 with
          | none => none
          | some (v, m) =>
            sqlParameterLoop fuel (buf1.drop m) { par with nullparameter := some v }
      else none

def signal__sql_statement__sql_parameter__unpack (buf : List Nat) : Option SqlParameter :=
  sqlParameterLoop buf.length buf ⟨none, none, none, none, none⟩

/-- The loop of `signal__sql_statement__unpack`.  Field 2 (`parameters`) is
repeated: no duplicate check, each occurrence is appended. -/
def sqlStatementLoop : Nat → List Nat → SqlStatement → Option SqlStatement
  | _, [], sql => some sql
  | 0, _ :: _, _ => none
  | fuel + 1, buf@(_ :: _), sql =>
    match tag_unpack buf with
    | none => none
    | some (fieldnum, wiretype, n) =>
      let buf1 := buf.drop n
      if fieldnum = 1 then
        if sql.statement.isSome then none
        else if wiretype ≠ 2 then none
        else match fieldlen_unpack buf1 with
          | none => none
          | some (fieldlen, m) =>
            let buf2 := buf1.drop m
            sqlStatementLoop fuel (buf2.drop fieldlen)
              { sql with statement := some (string_unpack fieldlen buf2) }
      else if fieldnum = 2 then
        if wiretype ≠ 2 then none
        else match fieldlen_unpack buf1 with
          | none => none
          | some (fieldlen, m) =>
            let buf2 := buf1.drop m
            match signal__sql_statement__sql_parameter__unpack (buf2.take fieldlen) with
            | none => none
            | some par =>
              sqlStatementLoop fuel (buf2.drop fieldlen)
                { sql with parameters := sql.parameters ++ [par] }
      else none

def signal__sql_statement__unpack (buf : List Nat) : Option SqlStatement :=
  sqlStatementLoop buf.length buf ⟨none, []⟩

/-- The loop of `signal__shared_preference__unpack`. -/
def sharedPreferenceLoop : Nat → List Nat → SharedPreference → Option SharedPreference
  | _, [], prf => some prf
  | 0, _ :: _, _ => none
  | fuel + 1, buf@(_ :: _), prf =>
    match tag_unpack buf with
    | none => none
    | some (fieldnum, wiretype, n) =>
      let buf1 := buf.drop n
      if fieldnum = 1 then
        if prf.file.isSome then none
        else if wiretype ≠ 2 then none
        else match fieldlen_unpack buf1 with
          | none => none
          | some (fieldlen, m) =>
            let buf2 := buf1.drop m
            sharedPreferenceLoop fuel (buf2.drop fieldlen)
              { prf with file := some (string_unpack fieldlen buf2) }
      else if fieldnum = 2 then
        if prf.key.isSome then none
        else if wiretype ≠ 2 then none
        else match fieldlen_unpack buf1 with
          | none => none
          | some (fieldlen, m) =>
            let buf2 := buf1.drop m
            sharedPreferenceLoop fuel (buf2.drop fieldlen)
              { prf with key := some (string_unpack fieldlen buf2) }
      else if fieldnum = 3 then
        if prf.value.isSome then none
        else if wiretype ≠ 2 then none
        else match fieldlen_unpack buf1 with
          | none => none
          | some (fieldlen, m) =>
            let buf2 := buf1.drop m
            sharedPreferenceLoop fuel (buf2.drop fieldlen)
              { prf with value := some (string_unpack fieldlen buf2) }
      else none

def signal__shared_preference__unpack (buf : List Nat) : Option SharedPreference :=
  sharedPreferenceLoop buf.length buf ⟨none, none, none⟩

/-- The loop of `signal__attachment__unpack`. -/
def attachmentLoop : Nat → List Nat → Attachment → Option Attachment
  | _, [], att => some att
  | 0, _ :: _, _ => none
  | fuel + 1, buf@(_ :: _), att =>
    match tag_unpack buf with
    | none => none
    | some (fieldnum, wiretype, n) =>
      let buf1 := buf.drop n
      if fieldnum = 1 then
        if att.rowid.isSome then none
        else if wiretype ≠ 0 then none
        else match uint64_unpack buf1 with
          | none => none
          | some (v, m) => attachmentLoop fuel (buf1.drop m) { att with rowid := some v }
      else if fieldnum = 2 then
        if att.attachmentid.isSome then none
        else if wiretype ≠ 0 then none
        else match uint64_unpack buf1 with
          | none => none
          | some (v, m) => attachmentLoop fuel (buf1.drop m) { att with attachmentid := some v }
      else if fieldnum = 3 then
        if att.length.isSome then none
        else if wiretype ≠ 0 then none
        else match uint32_unpack buf1 with
          | none => none
          | some (v, m) => attachmentLoop fuel (buf1.drop m) { att with length := some v }
      else none

def signal__attachment__unpack (buf : List Nat) : Option Attachment :=
  attachmentLoop buf.length buf ⟨none, none, none⟩

/-- The loop of `signal__database_version__unpack`. -/
def databaseVersionLoop : Nat → List Nat → DatabaseVersion → Option DatabaseVersion
  | _, [], ver => some ver
  | 0, _ :: _, _ => none
  | fuel + 1, buf@(_ :: _), ver =>
    match tag_unpack buf with
    | none => none
    | some (fieldnum, wiretype, n) =>
      let buf1 := buf.drop n
      if fieldnum = 1 then
        if ver.version.isSome then none
        else if wiretype ≠ 0 then none
        else match uint32_unpack buf1 with
          | none => none
          | some (v, m) => databaseVersionLoop fuel (buf1.drop m) { ver with version := some v }
      else none

def signal__database_version__unpack (buf : List Nat) : Option DatabaseVersion :=
  databaseVersionLoop buf.length buf ⟨none⟩

/-- The loop of `signal__avatar__unpack`. -/
def avatarLoop : Nat → List Nat → Avatar → Option Avatar
  | _, [], ava => some ava
  | 0, _ :: _, _ => none
  | fuel + 1, buf@(_ :: _), ava =>
    match tag_unpack buf with
    | none => none
    | some (fieldnum, wiretype, n) =>
      let buf1 := buf.drop n
      if fieldnum = 1 then
        if ava.name.isSome then none
        else if wiretype ≠ 2 then none
        else match fieldlen_unpack buf1 with
          | none => none
          | some (fieldlen, m) =>
            let buf2 := buf1.drop m
            avatarLoop fuel (buf2.drop fieldlen)
              { ava with name := some (string_unpack fieldlen buf2) }
      else if fieldnum = 2 then
        if ava.length.isSome then none
        else if wiretype ≠ 0 then none
        else match uint32_unpack buf1 with
          | none => none
          | some (v, m) => avatarLoop fuel (buf1.drop m) { ava with length := some v }
      else if fieldnum = 3 then
        if ava.recipientid.isSome then none
        else if wiretype ≠ 2 then none
        else match fieldlen_unpack buf1 with
          | none => none
          | some (fieldlen, m) =>
            let buf2 := buf1.drop m
            avatarLoop fuel (buf2.drop fieldlen)
              { ava with recipientid := some (string_unpack fieldlen buf2) }
      else none

def signal__avatar__unpack (buf : List Nat) : Option Avatar :=
  avatarLoop buf.length buf ⟨none, none, none⟩

/-- The loop of `signal__sticker__unpack`. -/
def stickerLoop : Nat → List Nat → Sticker → Option Sticker
  | _, [], sti => some sti
  | 0, _ :: _, _ => none
  | fuel + 1, buf@(_ :: _), sti =>
    match tag_unpack buf with
    | none => none
    | some (fieldnum, wiretype, n) =>
      let buf1 := buf.drop n
      if fieldnum = 1 then
        if sti.rowid.isSome then none
        else if wiretype ≠ 0 then none
        else match uint64_unpack buf1 with
          | none => none
          | some (v, m) => stickerLoop fuel (buf1.drop m) { sti with rowid := some v }
      else if fieldnum = 2 then
        if sti.length.isSome then none
        else if wiretype ≠ 0 then none
        else match uint32_unpack buf1 with
          | none => none
          | some (v, m) => stickerLoop fuel (buf1.drop m) { sti with length := some v }
      else none

def signal__sticker__unpack (buf : List Nat) : Option Sticker :=
  stickerLoop buf.length buf ⟨none, none⟩

/-- The loop of `signal__backup_frame__unpack`.  Fields 1–5, 7 and 8 are
submessages (wire type 2); field 6 (`end`) is a varint boolean. -/
def backupFrameLoop : Nat → List Nat → BackupFrame → Option BackupFrame
  | _, [], frm => some frm
  | 0, _ :: _, _ => none
  | fuel + 1, buf@(_ :: _), frm =>
    match tag_unpack buf with
    | none => none
    | some (fieldnum, wiretype, n) =>
      let buf1 := buf.drop n
      if fieldnum = 1 then
        if frm.header.isSome then none
        else if wiretype ≠ 2 then none
        else match fieldlen_unpack buf1 with
          | none => none
          | some (fieldlen, m) =>
            let buf2 := buf1.drop m
            match signal__header__unpack (buf2.take fieldlen) with
            | none => none
            | some sub =>
              backupFrameLoop fuel (buf2.drop fieldlen) { frm with header := some sub }
      else if fieldnum = 2 then
        if frm.statement.isSome then none
        else if wiretype ≠ 2 then none
        else match fieldlen_unpack buf1 with
          | none => none
          | some (fieldlen, m) =>
            let buf2 := buf1.drop m
            match signal__sql_statement__unpack (buf2.take fieldlen) with
            | none => none
            | some sub =>
              backupFrameLoop fuel (buf2.drop fieldlen) { frm with statement := some sub }
      else if fieldnum = 3 then
        if frm.preference.isSome then none
        else if wiretype ≠ 2 then none
        else match fieldlen_unpack buf1 with
          | none => none
          | some (fieldlen, m) =>
            let buf2 := buf1.drop m
            match signal__shared_preference__unpack (buf2.take fieldlen) with
            | none => none
            | some sub =>
              backupFrameLoop fuel (buf2.drop fieldlen) { frm with preference := some sub }
      else if fieldnum = 4 then
        if frm.attachment.isSome then none
        else if wiretype ≠ 2 then none
        else match fieldlen_unpack buf1 with
          | none => none
          | some (fieldlen, m) =>
            let buf2 := buf1.drop m
            match signal__attachment__unpack (buf2.take fieldlen) with
            | none => none
            | some sub =>
              backupFrameLoop fuel (buf2.drop fieldlen) { frm with attachment := some sub }
      else if fieldnum = 5 then
        if frm.version.isSome then none
        else if wiretype ≠ 2 then none
        else match fieldlen_unpack buf1 with
          | none => none
          | some (fieldlen, m) =>
            let buf2 := buf1.drop m
            match signal__database_version__unpack (buf2.take fieldlen) with
            | none => none
            | some sub =>
              backupFrameLoop fuel (buf2.drop fieldlen) { frm with version := some sub }
      else if fieldnum = 6 then
        if frm.endb.isSome then none
        else if wiretype ≠ 0 then none
        else match bool_unpack buf1 with
          | none => none
          | some (v, m) => backupFrameLoop fuel (buf1.drop m) { frm with endb := some v }
      else if fieldnum = 7 then
        if frm.avatar.isSome then none
        else if wiretype ≠ 2 then none
        else match fieldlen_unpack buf1 with
          | none => none
          | some (fieldlen, m) =>
            let buf2 := buf1.drop m
            match signal__avatar__unpack (buf2.take fieldlen) with
            | none => none
            | some sub =>
              backupFrameLoop fuel (buf2.drop fieldlen) { frm with avatar := some sub }
      else if fieldnum = 8 then
        if frm.sticker.isSome then none
        else if wiretype ≠ 2 then none
        else match fieldlen_unpack buf1 with
          | none => none
          | some (fieldlen, m) =>
            let buf2 := buf1.drop m
            match signal__sticker__unpack (buf2.take fieldlen) with
            | none => none
            | some sub =>
              backupFrameLoop fuel (buf2.drop fieldlen) { frm with sticker := some sub }
      else none

def signal__backup_frame__unpack (buf : List Nat) : Option BackupFrame :=
  backupFrameLoop buf.length buf ⟨none, none, none, none, none, none, none, none⟩

/-! ## The crypto stream (from `sbk.c`)

The OpenSSL state owned by `struct sbk_ctx` is abstracted into `Crypto`:
`hmac` is HMAC-SHA-256 with the MAC key already installed
(`HMAC_Init_ex(..., NULL, 0, NULL, NULL)` re-initialises with the same key),
and `ks ctr i` is byte `i` of the AES-256-CTR keystream for the IV whose
first four bytes are `ctr` in big-endian order (cipher key and IV tail are
fixed per context and baked into `ks`).  `EVP_DecryptUpdate` for a CTR
cipher XORs the input with successive keystream bytes, and
`EVP_DecryptFinal_ex` produces no output. -/

structure Crypto where
  hmac : List Nat → List Nat
  ks : Nat → Nat → Nat

/-- CTR decryption of a buffer fed to `EVP_DecryptUpdate` when `off`
keystream bytes have already been consumed since `sbk_decrypt_init`. -/
def xorKs (c : Crypto) (ctr off : Nat) (buf : List Nat) : List Nat :=
  buf.mapIdx fun i b => (b ^^^ c.ks ctr (off + i)) % 256

/-- `sbk_decrypt_init` overwrites the first four IV bytes with the counter in
big-endian order; the remaining twelve bytes are the header IV's tail. -/
def ivFor (iv : List Nat) (ctr : Nat) : List Nat :=
  [ctr >>> 24 % 256, ctr >>> 16 % 256, ctr >>> 8 % 256, ctr % 256] ++ iv.drop 4

/-- `struct sbk_file`: a recorded file payload position. -/
structure SbkFile where
  pos : Nat
  len : Nat
  counter : Nat
deriving Repr, DecidableEq

/-- The mutable fields of `struct sbk_ctx` that the frame iterator uses.  The
backup file contents are passed separately; `pos` is the `FILE *` offset. -/
structure SbkCtx where
  pos : Nat
  counter : Nat
  iv : List Nat
  firstframe : Bool
  eof : Bool
deriving Repr, DecidableEq

/-- `sbk_read`: `fread` of exactly `size` bytes, or "Unexpected end of file". -/
def sbk_read (file : List Nat) (pos size : Nat) : Except String (List Nat) :=
  if pos + size ≤ file.length then .ok ((file.drop pos).take size)
  else .error "Unexpected end of file"

/-- `sbk_read_frame`: read the 4-byte big-endian record length, reject it if,
read as a signed `int32_t`, it is `<= 0`, then read that many bytes.
Returns the record bytes and the new file position. -/
def sbk_read_frame (file : List Nat) (pos : Nat) : Except String (List Nat × Nat) :=
  match sbk_read file pos 4 with
  | .error e => .error e
  | .ok lenbuf =>
    let w : Nat := lenbuf.getD 0 0 <<< 24 ||| lenbuf.getD 1 0 <<< 16 |||
                   lenbuf.getD 2 0 <<< 8 ||| lenbuf.getD 3 0
    let len : Int := if w < 2 ^ 31 then (w : Int) else (w : Int) - 2 ^ 32
    if len ≤ 0 then .error "Invalid frame size"
    else match sbk_read file (pos + 4) w with
      | .error e => .error e
      | .ok frame => .ok (frame, pos + 4 + w)

/-- `sbk_has_file_data`. -/
def sbk_has_file_data (frm : BackupFrame) : Bool :=
  frm.attachment.isSome || frm.avatar.isSome || frm.sticker.isSome

/-- The length selection of `sbk_skip_file_data`: the first of
attachment/avatar/sticker that is present *and* carries a length; `none`
is the "Invalid frame" error. -/
def sbk_skip_file_len (frm : BackupFrame) : Option Nat :=
  match frm.attachment.bind (·.length) with
  | some l => some l
  | none =>
    match frm.avatar.bind (·.length) with
    | some l => some l
    | none => frm.sticker.bind (·.length)

/-- The length selection of `sbk_get_file`: keyed on which submessage is
*present*; a present submessage without a length is an error.  (The final
arm is unreachable: `sbk_get_file` is only called when `sbk_has_file_data`
holds; the C code would leave `file->len` uninitialised there.) -/
def sbk_get_file_len (frm : BackupFrame) : Except String Nat :=
  match frm.attachment with
  | some att =>
    match att.length with
    | some l => .ok l
    | none => .error "Invalid attachment frame"
  | none =>
    match frm.avatar with
    | some ava =>
      match ava.length with
      | some l => .ok l
      | none => .error "Invalid avatar frame"
    | none =>
      match frm.sticker with
      | some sti =>
        match sti.length with
        | some l => .ok l
        | none => .error "Invalid sticker frame"
      | none => .ok 0

/-- The result of one successful `sbk_get_frame` call: the decoded frame and,
when the caller passed a non-NULL `file` pointer and the frame carries file
data, the recorded `sbk_file`. -/
structure FrameResult where
  frm : BackupFrame
  file : Option SbkFile
deriving Repr, DecidableEq

/-- `sbk_get_frame`: `.ok none` is the NULL return with `ctx->eof` set (clean
end of iteration); `.error` is a NULL return with an error installed.
`wantFile` models whether the caller's `file` out-parameter is non-NULL.
On an error return the C context's partial mutations are discarded. -/
def sbk_get_frame (c : Crypto) (file : List Nat) (ctx : SbkCtx) (wantFile : Bool) :
    Except String (Option (FrameResult × SbkCtx)) :=
  if ctx.eof then .ok none
  else match sbk_read_frame file ctx.pos with
  | .error e => .error e
  | .ok (ibuf, pos1) =>
    if ctx.firstframe then
      -- The first frame is not encrypted
      match signal__backup_frame__unpack ibuf with
      | none => .error "Cannot unpack frame"
      | some frm => .ok (some (⟨frm, none⟩, { ctx with pos := pos1, firstframe := false }))
    else
      if ibuf.length ≤ 10 then .error "Invalid frame size"
      else
        let ctlen := ibuf.length - 10
        let ct := ibuf.take ctlen
        let mac := ibuf.drop ctlen
        let obuf := xorKs c ctx.counter 0 ct
        if (c.hmac ct).take 10 ≠ mac then .error "HMAC mismatch"
        else match signal__backup_frame__unpack obuf with
          | none => .error "Cannot unpack frame"
          | some frm =>
            let eof1 := frm.endb.isSome
            let ctr1 := (ctx.counter + 1) % 2 ^ 32
            let ctx1 : SbkCtx := { ctx with pos := pos1, counter := ctr1, eof := eof1 }
            if sbk_has_file_data frm then
              if wantFile then
                match sbk_get_file_len frm with
                | .error e => .error e
                | .ok flen =>
                  match sbk_skip_file_len frm with
                  | none => .error "Invalid frame"
                  | some slen =>
                    .ok (some (⟨frm, some ⟨pos1, flen, ctr1⟩⟩,
                      { ctx1 with pos := pos1 + slen + 10, counter := (ctr1 + 1) % 2 ^ 32 }))
              else
                match sbk_skip_file_len frm with
                | none => .error "Invalid frame"
                | some slen =>
                  .ok (some (⟨frm, none⟩,
                    { ctx1 with pos := pos1 + slen + 10, counter := (ctr1 + 1) % 2 ^ 32 }))
            else .ok (some (⟨frm, none⟩, ctx1))

/-- `sbk_open`: read the unencrypted header frame, validate the IV, set the
initial counter from the IV's first four bytes, rewind.  Key derivation and
the cipher/HMAC initialisation live in the abstract `Crypto`. -/
def sbk_open (c : Crypto) (file : List Nat) : Except String SbkCtx :=
  let ctx0 : SbkCtx := ⟨0, 0, List.replicate 16 0, true, false⟩
  match sbk_get_frame c file ctx0 false with
  | .error e => .error e
  | .ok none => .error "Unknown error"
  | .ok (some (fr, _)) =>
    match fr.frm.header with
    | none => .error "Missing header frame"
    | some hdr =>
      match hdr.iv with
      | none => .error "Missing IV"
      | some iv =>
        if iv.length ≠ 16 then .error "Invalid IV size"
        else
          let ctr := iv.getD 0 0 <<< 24 ||| iv.getD 1 0 <<< 16 |||
                     iv.getD 2 0 <<< 8 ||| iv.getD 3 0
          .ok { pos := 0, counter := ctr, iv := iv, firstframe := true, eof := false }

/-! ## File payload extraction (`sbk_write_file`, `sbk_get_file_as_string`) -/

/-- The `BUFSIZ`-chunked read/decrypt loop shared (textually) by
`sbk_write_file` and `sbk_get_file_as_string`.  `fed` accumulates the bytes
fed to the HMAC, `out` the plaintext.  Structural recursion on `fuel`; each
iteration consumes at least one byte of `len`, so `fuel = len` suffices and
the artifact arm is unreachable. -/
def sbk_file_loop (c : Crypto) (file : List Nat) (ctr : Nat) :
    Nat → Nat → Nat → Nat → List Nat → List Nat →
    Except String (List Nat × List Nat × Nat)
  | _, pos, _, 0, fed, out => .ok (fed, out, pos)
  | 0, _, _, _ + 1, _, _ => .error "Unknown error"
  | fuel + 1, pos, off, len + 1, fed, out =>
    let ibuflen := if len + 1 < 1024 then len + 1 else 1024
    match sbk_read file pos ibuflen with
    | .error e => .error e
    | .ok chunk =>
      sbk_file_loop c file ctr fuel (pos + ibuflen) (off + ibuflen) (len + 1 - ibuflen)
        (fed ++ chunk) (out ++ xorKs c ctr off chunk)

/-- `sbk_write_file`: seek to the payload, initialise the cipher and HMAC at
the recorded counter, feed the 16-byte IV to the HMAC *before* the
ciphertext, stream the payload in `BUFSIZ` chunks, read the trailing 10-byte
tag and verify it against the first 10 HMAC bytes.  Returns the plaintext
written to the sink. -/
def sbk_write_file (c : Crypto) (file : List Nat) (iv : List Nat) (f : SbkFile) :
    Except String (List Nat) :=
  match sbk_file_loop c file f.counter f.len f.pos 0 f.len (ivFor iv f.counter) [] with
  | .error e => .error e
  | .ok (fed, out, pos1) =>
    match sbk_read file pos1 10 with
    | .error e => .error e
    | .ok mac =>
      if (c.hmac fed).take 10 ≠ mac then .error "HMAC mismatch"
      else .ok out

/-- `sbk_get_file_as_string`: identical loop and verification; the result is
returned as a NUL-terminated string (the terminator is not part of the
modelled contents). -/
def sbk_get_file_as_string (c : Crypto) (file : List Nat) (iv : List Nat) (f : SbkFile) :
    Except String (List Nat) :=
  match sbk_file_loop c file f.counter f.len f.pos 0 f.len (ivFor iv f.counter) [] with
  | .error e => .error e
  | .ok (fed, out, pos1) =>
    match sbk_read file pos1 10 with
    | .error e => .error e
    | .ok mac =>
      if (c.hmac fed).take 10 ≠ mac then .error "HMAC mismatch"
      else .ok out

/-! ## The replay engine (`sbk_create_database` and helpers)

The in-memory SQLite database is external to the repository; it is modelled
as the sequence of operations successfully submitted to it (the `user_version`
pragma and the executed parameterised statements).  SQLite-side failures
(`sqlite3_prepare`/`sqlite3_step` errors) are not modelled. -/

/-- A value bound to a statement parameter by `sbk_bind_param`.  `int` holds
the raw `uint64` protobuf value that C reinterprets as `sqlite3_int64`;
`double` holds the raw 64-bit pattern. -/
inductive BoundValue where
  | text (s : List Nat)
  | int (v : Nat)
  | double (bits : Nat)
  | blob (b : List Nat)
  | null
deriving Repr, DecidableEq

inductive DbOp where
  | setVersion (v : Nat)
  | exec (sql : List Nat) (params : List BoundValue)
deriving Repr, DecidableEq

structure DbState where
  version : Nat
  ops : List DbOp
deriving Repr, DecidableEq

/-- `sbk_bind_param`: select the bind by the first variant present, in the
source's order; no variant at all is "Unknown SQL parameter type". -/
def sbk_bind_param (par : SqlParameter) : Except String BoundValue :=
  match par.stringparamter with
  | some s => .ok (.text s)
  | none =>
    match par.integerparameter with
    | some v => .ok (.int v)
    | none =>
      match par.doubleparameter with
      | some v => .ok (.double v)
      | none =>
        match par.blobparameter with
        | some b => .ok (.blob b)
        | none =>
          match par.nullparameter with
          | some _ => .ok .null
          | none => .error "Unknown SQL parameter type"

/-- The bind loop of `sbk_exec_statement`: parameter `i` is bound at SQL
index `i + 1`; the list positions carry the indices. -/
def sbk_bind_params : List SqlParameter → Except String (List BoundValue)
  | [] => .ok []
  | p :: rest =>
    match sbk_bind_param p with
    | .error e => .error e
    | .ok v =>
      match sbk_bind_params rest with
      | .error e => .error e
      | .ok vs => .ok (v :: vs)

/-- ASCII `tolower`, as used by `strncasecmp` in the C locale. -/
def lowerByte (b : Nat) : Nat :=
  if 65 ≤ b ∧ b ≤ 90 then b + 32 else b

/-- `strncasecmp(s1, s2, n) == 0` on NUL-free byte lists: the end of a list
is the NUL terminator. -/
def strncasecmpEq : Nat → List Nat → List Nat → Bool
  | 0, _, _ => true
  | n + 1, s1, s2 =>
    if lowerByte (s1.headD 0) ≠ lowerByte (s2.headD 0) then false
    else if s1.headD 0 = 0 then true
    else strncasecmpEq n s1.tail s2.tail

/-- The byte string `"create table sqlite_"` (20 bytes). -/
def createTableSqliteBytes : List Nat :=
  "create table sqlite_".data.map Char.toNat

/-- `sbk_exec_statement`: a missing SQL text is an error; a statement whose
text matches `create table sqlite_` case-insensitively over its first 20
characters is silently skipped; otherwise the statement is prepared, its
parameters are bound positionally, and it is executed. -/
def sbk_exec_statement (db : DbState) (sql : SqlStatement) : Except String DbState :=
  match sql.statement with
  | none => .error "Invalid SQL frame"
  | some stmt =>
    -- Don't try to create tables with reserved names
    if strncasecmpEq 20 stmt createTableSqliteBytes then .ok db
    else match sbk_bind_params sql.parameters with
      | .error e => .error e
      | .ok vals => .ok { db with ops := db.ops ++ [.exec stmt vals] }

/-- `sbk_set_database_version`: requires `has_version`; records the
`PRAGMA user_version` and the version used for query selection. -/
def sbk_set_database_version (db : DbState) (ver : DatabaseVersion) : Except String DbState :=
  match ver.version with
  | none => .error "Invalid version frame"
  | some v => .ok { version := v, ops := db.ops ++ [.setVersion v] }

/-- `(uint64_t)` to `(int64_t)` reinterpretation, used where C stores the
protobuf `uint64` ids into `int64_t` tree fields. -/
def toInt64 (v : Nat) : Int :=
  if v % 2 ^ 64 < 2 ^ 63 then (v % 2 ^ 64 : Nat) else (v % 2 ^ 64 : Nat) - 2 ^ 64

/-- `struct sbk_attachment_entry` of the red-black tree, keyed on
`(rowid, attachmentid)` (both `int64_t`). -/
structure AttachmentEntry where
  rowid : Int
  attachmentid : Int
  file : Option SbkFile
deriving Repr, DecidableEq

/-- `RB_FIND` on the attachment tree: the entry with both keys equal. -/
def sbk_find_attachment_entry (tree : List AttachmentEntry) (rowid attachmentid : Int) :
    Option AttachmentEntry :=
  tree.find? fun e => e.rowid = rowid ∧ e.attachmentid = attachmentid

/-- `sbk_get_attachment_file`: `RB_FIND` then `result->file`. -/
def sbk_get_attachment_file (tree : List AttachmentEntry) (rowid attachmentid : Int) :
    Option (Option SbkFile) :=
  (sbk_find_attachment_entry tree rowid attachmentid).map (·.file)

/-- `sbk_insert_attachment_entry`: requires `has_rowid` and
`has_attachmentid`; `RB_INSERT` leaves the tree unchanged when the key is
already present. -/
def sbk_insert_attachment_entry (tree : List AttachmentEntry) (att : Attachment)
    (file : Option SbkFile) : Except String (List AttachmentEntry) :=
  match att.rowid, att.attachmentid with
  | some r, some a =>
    let r64 := toInt64 r
    let a64 := toInt64 a
    if (sbk_find_attachment_entry tree r64 a64).isSome then .ok tree
    else .ok (tree ++ [⟨r64, a64, file⟩])
  | _, _ => .error "Invalid attachment frame"

/-- The frame-dispatch loop of `sbk_create_database`.  Structural recursion
on `fuel`; every frame record occupies at least five file bytes, so the
top-level fuel of `file.length + 1` never runs out and the artifact arm is
unreachable.  The loop ends cleanly only via `sbk_get_frame = .ok none`,
which requires `ctx.eof` — the C code's `if (!ctx->eof) goto error` after
the loop. -/
def createLoop (c : Crypto) (file : List Nat) :
    Nat → SbkCtx → DbState → List AttachmentEntry →
    Except String (DbState × List AttachmentEntry × SbkCtx)
  | 0, _, _, _ => .error "Unknown error"
  | fuel + 1, ctx, db, tree =>
    match sbk_get_frame c file ctx true with
    | .error e => .error e
    | .ok none => .ok (db, tree, ctx)
    | .ok (some (fr, ctx')) =>
      match fr.frm.version with
      | some ver =>
        match sbk_set_database_version db ver with
        | .error e => .error e
        | .ok db' => createLoop c file fuel ctx' db' tree
      | none =>
        match fr.frm.statement with
        | some sql =>
          match sbk_exec_statement db sql with
          | .error e => .error e
          | .ok db' => createLoop c file fuel ctx' db' tree
        | none =>
          match fr.frm.attachment with
          | some att =>
            match sbk_insert_attachment_entry tree att fr.file with
            | .error e => .error e
            | .ok tree' => createLoop c file fuel ctx' db tree'
          | none => createLoop c file fuel ctx' db tree

/-- `sbk_create_database`: open the in-memory database, rewind, replay all
frames in one transaction.  On any error the database is closed and
discarded (`ctx->db = NULL`), which the `Except` failure models. -/
def sbk_create_database (c : Crypto) (file : List Nat) (ctx : SbkCtx) :
    Except String (DbState × List AttachmentEntry × SbkCtx) :=
  createLoop c file (file.length + 1)
    { ctx with pos := 0, eof := false, firstframe := true } ⟨0, []⟩ []

/-! ## Mentions (`sbk_insert_mentions` and helpers) -/

/-- `SBK_MENTION_PLACEHOLDER`: the UTF-8 encoding of U+FFFC. -/
def mentionPlaceholder : List Nat := [0xef, 0xbf, 0xbc]

/-- `strstr` on byte lists: index of the first occurrence of `pat`. -/
def strstrIdx (hay pat : List Nat) : Option Nat :=
  match hay with
  | [] => if pat.isEmpty then some 0 else none
  | _ :: t => if pat.isPrefixOf hay then some 0 else (strstrIdx t pat).map (· + 1)

/-- The first loop of `sbk_insert_mentions`: compute the length of the new
text, failing when the remaining length cannot contain a placeholder. -/
def mentionsLenLoop (names : List (List Nat)) (len : Nat) : Option Nat :=
  match names with
  | [] => some len
  | n :: rest =>
    if len < 3 then none
    else mentionsLenLoop rest (len - 3 + 1 + n.length)

/-- The second loop of `sbk_insert_mentions` plus the final leftover check:
replace each successive placeholder by `"@" ++ name`; a mention without a
placeholder, or a placeholder left after the last mention, fails. -/
def mentionsSubstLoop (names : List (List Nat)) (text : List Nat) : Option (List Nat) :=
  match names with
  | [] =>
    if (strstrIdx text mentionPlaceholder).isSome then none else some text
  | n :: rest =>
    match strstrIdx text mentionPlaceholder with
    | none => none
    | some i =>
      (mentionsSubstLoop rest (text.drop (i + 3))).map
        fun tail2 => text.take i ++ [0x40] ++ n ++ tail2

/-- `sbk_insert_mentions`, applied to a message text and the display names of
its mentions in `range_start` order (texts are NUL-free byte lists).  When
the mention list is NULL or empty the function returns success immediately,
before any placeholder check. -/
def sbk_insert_mentions (text : List Nat) (names : List (List Nat)) :
    Except String (List Nat) :=
  if names.isEmpty then .ok text
  else match mentionsLenLoop names text.length with
    | none => .error "Invalid mention in message"
    | some _ =>
      match mentionsSubstLoop names text with
      | none => .error "Invalid mention in message"
      | some t => .ok t

/-- `sbk_get_mentions_for_message` runs only for database versions ≥
`SBK_DB_VERSION_MENTIONS` (68); below that the mention list stays NULL. -/
def sbk_get_mentions_for_message (dbVersion : Nat) (mentionRows : List (List Nat)) :
    List (List Nat) :=
  if dbVersion < 68 then [] else mentionRows

/-! ## Attachment rows (`sbk_get_attachment`) -/

/-- Modelled from the spec: `SBK_ATTACHMENT_TRANSFER_DONE` is declared in
`sigbak.h`, which is not part of the sources here; per the spec its value
(Signal's `ATTACHMENT_TRANSFER_DONE`) is 0. -/
def SBK_ATTACHMENT_TRANSFER_DONE : Int := 0

/-- One row of the `part`-table query (`SBK_ATTACHMENTS_SELECT`), as read by
`sqlite3_column_*`. -/
structure PartRow where
  filename : Option (List Nat)
  content_type : Option (List Nat)
  rowid : Int
  attachmentid : Int
  status : Int
  size : Int
deriving Repr, DecidableEq

/-- `struct sbk_attachment` as built by `sbk_get_attachment`. -/
structure SbkAttachment where
  filename : Option (List Nat)
  content_type : Option (List Nat)
  rowid : Int
  attachmentid : Int
  status : Int
  size : Int
  file : Option SbkFile
deriving Repr, DecidableEq

/-- `sbk_get_attachment`: for a row whose `pending_push` status is
`SBK_ATTACHMENT_TRANSFER_DONE`, a FileRef must exist under
`(rowid, attachmentid)` and the row's `data_size` must equal its length;
for any other status no FileRef is looked up. -/
def sbk_get_attachment (tree : List AttachmentEntry) (row : PartRow) :
    Except String SbkAttachment :=
  if row.status = SBK_ATTACHMENT_TRANSFER_DONE then
    match sbk_get_attachment_file tree row.rowid row.attachmentid with
    | none => .error "Cannot find attachment file"
    | some none => .error "Cannot find attachment file"
    | some (some f) =>
      if row.size ≠ (f.len : Int) then .error "Inconsistent attachment size"
      else .ok ⟨row.filename, row.content_type, row.rowid, row.attachmentid,
                row.status, row.size, some f⟩
  else .ok ⟨row.filename, row.content_type, row.rowid, row.attachmentid,
            row.status, row.size, none⟩

/-! ## Key derivation (`sbk_compute_keys`)

SHA-512 and HKDF-SHA-256 are abstract: `sha512` maps a byte list to its
digest, `hkdf ikm salt info outlen` is the HKDF expansion. -/

/-- The `for (i = 0; i < SBK_ROUNDS - 1; i++)` loop of `sbk_compute_keys`:
`n` further rounds of `key = SHA512(key ‖ passphrase)`. -/
def sbkKeyRounds (sha512 : List Nat → List Nat) (passphr : List Nat) :
    Nat → List Nat → List Nat
  | 0, key => key
  | n + 1, key => sbkKeyRounds sha512 passphr n (sha512 (key ++ passphr))

/-- The byte string `"Backup Export"` (`SBK_HKDF_INFO`). -/
def backupExportInfo : List Nat :=
  "Backup Export".data.map Char.toNat

/-- `sbk_compute_keys`: one initial round over `salt ‖ passphrase ‖
passphrase` (the salt update is skipped when the header had no salt),
`SBK_ROUNDS - 1` further rounds, HKDF-expand the first `SBK_KEY_LEN = 32`
bytes with empty salt and info `"Backup Export"` to 64 bytes, split into the
cipher key and the MAC key. -/
def sbk_compute_keys (sha512 : List Nat → List Nat)
    (hkdf : List Nat → List Nat → List Nat → Nat → List Nat)
    (passphr : List Nat) (salt : Option (List Nat)) : List Nat × List Nat :=
  let key0 := sha512 ((match salt with | some s => s | none => []) ++ passphr ++ passphr)
  let key := sbkKeyRounds sha512 passphr (250000 - 1) key0
  let derivkey := hkdf (key.take 32) [] backupExportInfo 64
  (derivkey.take 32, (derivkey.drop 32).take 32)

/-! ## Specification-side definitions

These definitions are written from the specification's words, to be compared
with the code-side definitions above. -/

/-- Spec: the round-indexed hash of the key derivation — round 0 is
`SHA-512(salt ‖ passphrase ‖ passphrase)`, round `r + 1` is
`SHA-512(round r ‖ passphrase)`. -/
def specIterHash (sha512 : List Nat → List Nat) (passphr salt : List Nat) : Nat → List Nat
  | 0 => sha512 (salt ++ passphr ++ passphr)
  | r + 1 => sha512 (specIterHash sha512 passphr salt r ++ passphr)

/-- Spec: 250,000 rounds of SHA-512, take the first 32 bytes as the backup
key, HKDF-SHA-256 with empty salt and info `"Backup Export"` to 64 bytes,
first 32 bytes the AES key, next 32 bytes the MAC key. -/
def spec_compute_keys (sha512 : List Nat → List Nat)
    (hkdf : List Nat → List Nat → List Nat → Nat → List Nat)
    (passphr : List Nat) (salt : Option (List Nat)) : List Nat × List Nat :=
  let backupKey := (specIterHash sha512 passphr (salt.getD []) 249999).take 32
  let derived := hkdf backupKey [] backupExportInfo 64
  (derived.take 32, (derived.drop 32).take 32)

/-- Spec: substitute each successive `U+FFFC` placeholder by `"@"` followed
by the mention's display name; a mention without a remaining placeholder, or
a placeholder left over after all mentions are consumed, is an error. -/
def substMentionsSpec (names : List (List Nat)) (text : List Nat) : Option (List Nat) :=
  match names with
  | [] => if (strstrIdx text mentionPlaceholder).isSome then none else some text
  | n :: rest =>
    match strstrIdx text mentionPlaceholder with
    | none => none
    | some i =>
      (substMentionsSpec rest (text.drop (i + 3))).map
        fun tail2 => text.take i ++ [0x40] ++ n ++ tail2

/-- Spec: the case-insensitive prefix condition of the replay engine — the
first 20 bytes of the statement, lowercased, are `"create table sqlite_"`. -/
def beginsCreateTableSqlite (stmt : List Nat) : Prop :=
  (stmt.take 20).map lowerByte = createTableSqliteBytes

instance (stmt : List Nat) : Decidable (beginsCreateTableSqlite stmt) := by
  unfold beginsCreateTableSqlite
  infer_instance

/-- Spec (wire format): how many body bytes follow a tag of the given wire
type — varint, 8 bytes, length-delimited, or 4 bytes. -/
def tokenBodyLen (wiretype : Nat) (buf : List Nat) : Option Nat :=
  if wiretype = 0 then (varint_unpack buf).map (·.2)
  else if wiretype = 1 then (if 8 ≤ buf.length then some 8 else none)
  else if wiretype = 2 then (fieldlen_unpack buf).map (fun p => p.2 + p.1)
  else if wiretype = 5 then (if 4 ≤ buf.length then some 4 else none)
  else none

/-- Spec (wire format): the sequence of `(fieldnum, wiretype)` field
occurrences of a protobuf buffer, independent of any message schema. -/
def tokenize : Nat → List Nat → Option (List (Nat × Nat))
  | _, [] => some []
  | 0, _ :: _ => none
  | fuel + 1, buf@(_ :: _) =>
    match tag_unpack buf with
    | none => none
    | some (f, w, n) =>
      let buf1 := buf.drop n
      match tokenBodyLen w buf1 with
      | none => none
      | some m => (tokenize fuel (buf1.drop m)).map ((f, w) :: ·)

/-- The number of occurrences of field `f` in a token list. -/
def countTok (f : Nat) (toks : List (Nat × Nat)) : Nat :=
  (toks.filter fun t => t.1 = f).length

/-- Which non-repeated field of `Signal__BackupFrame` is already set. -/
def bfFlag (frm : BackupFrame) (f : Nat) : Bool :=
  if f = 1 then frm.header.isSome
  else if f = 2 then frm.statement.isSome
  else if f = 3 then frm.preference.isSome
  else if f = 4 then frm.attachment.isSome
  else if f = 5 then frm.version.isSome
  else if f = 6 then frm.endb.isSome
  else if f = 7 then frm.avatar.isSome
  else if f = 8 then frm.sticker.isSome
  else false

/-- Which non-repeated field of `SqlParameter` is already set. -/
def spFlag (par : SqlParameter) (f : Nat) : Bool :=
  if f = 1 then par.stringparamter.isSome
  else if f = 2 then par.integerparameter.isSome
  else if f = 3 then par.doubleparameter.isSome
  else if f = 4 then par.blobparameter.isSome
  else if f = 5 then par.nullparameter.isSome
  else false

/-! ## Backup-stream builders (for the open/replay theorems)

A well-formed encrypted record is built from its ciphertext and (for
attachment/avatar/sticker frames) its raw payload region. -/

/-- A 4-byte big-endian length field. -/
def be32 (n : Nat) : List Nat :=
  [n >>> 24 % 256, n >>> 16 % 256, n >>> 8 % 256, n % 256]

/-- One encrypted frame of a backup stream: the frame ciphertext and the
(ciphertext ‖ tag) bytes of its file payload (empty for frames without file
data). -/
structure FrameSpec where
  ct : List Nat
  payload : List Nat
deriving Repr, DecidableEq

/-- The on-disk bytes of one encrypted record: big-endian length, ciphertext,
the first 10 bytes of the HMAC of the ciphertext, then the payload region. -/
def frameSpecBytes (c : Crypto) (f : FrameSpec) : List Nat :=
  be32 (f.ct.length + 10) ++ f.ct ++ (c.hmac f.ct).take 10 ++ f.payload

def framesBytes (c : Crypto) (fs : List FrameSpec) : List Nat :=
  (fs.map (frameSpecBytes c)).flatten

/-- The unencrypted header record: big-endian length then the plaintext. -/
def mkPlainRecord (p : List Nat) : List Nat :=
  be32 p.length ++ p

/-- The counter after processing one frame: one increment for the frame and
one more when a file payload follows (both modulo `2 ^ 32`). -/
def nextCtr (ctr : Nat) (f : FrameSpec) : Nat :=
  if f.payload.isEmpty then (ctr + 1) % 2 ^ 32
  else ((ctr + 1) % 2 ^ 32 + 1) % 2 ^ 32

/-- The counter after processing a list of frames. -/
def chainCtr (ctr : Nat) (fs : List FrameSpec) : Nat :=
  fs.foldl nextCtr ctr

/-- The number of frames followed by a file payload. -/
def payloadCount (fs : List FrameSpec) : Nat :=
  (fs.filter fun f => ¬ f.payload.isEmpty).length

/-- A frame of the stream that the iterator accepts when reached at counter
`ctr`: the ciphertext is non-empty, the record length fits `int32_t`, the
HMAC is at least 10 bytes wide, the decrypted bytes decode to `frm`, and the
payload region is consistent with the frame's declared file length. -/
def FrameOk (c : Crypto) (ctr : Nat) (f : FrameSpec) (frm : BackupFrame) : Prop :=
  signal__backup_frame__unpack (xorKs c ctr 0 f.ct) = some frm ∧
  f.ct ≠ [] ∧ f.ct.length + 10 < 2 ^ 31 ∧ 10 ≤ (c.hmac f.ct).length ∧
  (if sbk_has_file_data frm then
    ∃ l, sbk_get_file_len frm = .ok l ∧ sbk_skip_file_len frm = some l ∧
         f.payload.length = l + 10
   else f.payload = [])

/-- The conditions under which the replay dispatch of `sbk_create_database`
accepts a frame (SQLite-side failures are not modelled). -/
def dispatchOk (frm : BackupFrame) : Prop :=
  match frm.version with
  | some ver => ver.version.isSome
  | none =>
    match frm.statement with
    | some sql =>
      ∃ stmt, sql.statement = some stmt ∧
        (strncasecmpEq 20 stmt createTableSqliteBytes = true ∨
         ∃ vals, sbk_bind_params sql.parameters = .ok vals)
    | none =>
      match frm.attachment with
      | some att => att.rowid.isSome ∧ att.attachmentid.isSome
      | none => True

/-- A run of non-final frames that the replay loop traverses: each frame is
accepted, carries no `end` field, and its dispatch succeeds. -/
inductive Chain (c : Crypto) : Nat → List FrameSpec → Prop where
  | nil (ctr : Nat) : Chain c ctr []
  | cons (ctr : Nat) (f : FrameSpec) (frm : BackupFrame) (fs : List FrameSpec) :
      FrameOk c ctr f frm → frm.endb = none → dispatchOk frm →
      Chain c (nextCtr ctr f) fs → Chain c ctr (f :: fs)

/-- The record of frame `f` with exactly its ciphertext bytes replaced by
`ct'`: the length field, the stored tag and the payload region are those of
the original frame. -/
def corruptFrameBytes (c : Crypto) (f : FrameSpec) (ct' : List Nat) : List Nat :=
  be32 (f.ct.length + 10) ++ ct' ++ (c.hmac f.ct).take 10 ++ f.payload

/-- Calling `sbk_get_frame` `n` times in sequence, as every frame-iteration
loop in `sbk.c` does (with a non-NULL `file` out-parameter), stopping cleanly
at end-of-file. -/
def sbk_iterate (c : Crypto) (file : List Nat) : Nat → SbkCtx → Except String SbkCtx
  | 0, ctx => .ok ctx
  | n + 1, ctx =>
    match sbk_get_frame c file ctx true with
    | .error e => .error e
    | .ok none => .ok ctx
    | .ok (some (_, ctx')) => sbk_iterate c file n ctx'

/-- A concrete `Crypto` used to instantiate theorems on closed inputs: the
"HMAC" of a buffer is ten copies of its byte sum and the keystream is all
zeroes. -/
def demoCrypto : Crypto :=
  ⟨fun bs => List.replicate 10 (bs.sum % 256), fun _ _ => 0⟩

/-- A concrete 16-byte IV whose first four bytes read 5 in big-endian. -/
def demoIv : List Nat :=
  [0, 0, 0, 5] ++ List.replicate 12 0

/-- A concrete plaintext of an unencrypted header record carrying `demoIv`. -/
def demoHeaderPt : List Nat :=
  [0x0A, 0x12, 0x0A, 0x10] ++ demoIv

/-- A concrete encrypted frame (under `demoCrypto`) carrying database
version 1. -/
def demoVersionFrame : FrameSpec :=
  ⟨[0x2A, 0x02, 0x08, 0x01], []⟩

/-- A concrete encrypted frame (under `demoCrypto`) carrying `end = true`. -/
def demoEndFrame : FrameSpec :=
  ⟨[0x30, 0x01], []⟩

/-- A complete, valid concrete backup: header record, version frame, end
frame. -/
def goodBackupBytes : List Nat :=
  mkPlainRecord demoHeaderPt ++ (framesBytes demoCrypto [demoVersionFrame, demoEndFrame])

/-- `goodBackupBytes` with exactly one ciphertext byte of its final
(encrypted, non-first) frame corrupted: byte 46 is the first ciphertext byte
of the end frame and is changed from 0x30 to 0x31. -/
def badBackupBytes : List Nat :=
  mkPlainRecord demoHeaderPt ++ (framesBytes demoCrypto [demoVersionFrame] ++
    (corruptFrameBytes demoCrypto demoEndFrame [0x31, 0x01] ++ []))

/-! ## Consumption bounds for the wire primitives -/

theorem varintLoop_bounds (buf : List Nat) (i acc : Nat) (v n : Nat)
    (h : varintLoop buf i acc = some (v, n)) : i + 1 ≤ n ∧ n ≤ i + buf.length := by
  induction buf generalizing i acc with
  | nil => simp [varintLoop] at h
  | cons b rest ih =>
    simp only [varintLoop] at h
    split at h
    · split at h
      · simp only [Option.some.injEq, Prod.mk.injEq] at h
        obtain ⟨-, h2⟩ := h
        simp only [List.length_cons]
        omega
      · have := ih (i + 1) _ h
        simp only [List.length_cons]
        omega
    · exact absurd h (by simp)

theorem varint_unpack_bounds (buf : List Nat) (v n : Nat)
    (h : varint_unpack buf = some (v, n)) : 1 ≤ n ∧ n ≤ buf.length := by
  have := varintLoop_bounds buf 0 0 v n h
  omega

theorem tag_unpack_bounds (buf : List Nat) (f w n : Nat)
    (h : tag_unpack buf = some (f, w, n)) : 1 ≤ n ∧ n ≤ buf.length := by
  unfold tag_unpack at h
  split at h
  · exact absurd h (by simp)
  · next v m heq =>
    split at h
    · exact absurd h (by simp)
    · simp only [Option.some.injEq, Prod.mk.injEq] at h
      obtain ⟨-, -, rfl⟩ := h
      exact varint_unpack_bounds buf v m heq

theorem fieldlen_unpack_bounds (buf : List Nat) (l n : Nat)
    (h : fieldlen_unpack buf = some (l, n)) : 1 ≤ n ∧ n + l ≤ buf.length := by
  unfold fieldlen_unpack at h
  split at h
  · exact absurd h (by simp)
  · next v m heq =>
    split at h
    · exact absurd h (by simp)
    · simp only [Option.some.injEq, Prod.mk.injEq] at h
      obtain ⟨rfl, rfl⟩ := h
      have := varint_unpack_bounds buf v m heq
      omega

theorem bool_unpack_bounds (buf : List Nat) (v : Bool) (n : Nat)
    (h : bool_unpack buf = some (v, n)) : 1 ≤ n ∧ n ≤ buf.length := by
  unfold bool_unpack at h
  split at h
  · exact absurd h (by simp)
  · next w m heq =>
    simp only [Option.some.injEq, Prod.mk.injEq] at h
    obtain ⟨-, rfl⟩ := h
    exact varint_unpack_bounds buf w m heq

theorem uint32_unpack_bounds (buf : List Nat) (v n : Nat)
    (h : uint32_unpack buf = some (v, n)) : 1 ≤ n ∧ n ≤ buf.length := by
  unfold uint32_unpack at h
  split at h
  · exact absurd h (by simp)
  · next w m heq =>
    split at h
    · exact absurd h (by simp)
    · simp only [Option.some.injEq, Prod.mk.injEq] at h
      obtain ⟨rfl, rfl⟩ := h
      exact varint_unpack_bounds buf w m heq

theorem uint64_unpack_bounds (buf : List Nat) (v n : Nat)
    (h : uint64_unpack buf = some (v, n)) : 1 ≤ n ∧ n ≤ buf.length := by
  exact varint_unpack_bounds buf v n h

theorem fixed64_unpack_bounds (buf : List Nat) (v n : Nat)
    (h : fixed64_unpack buf = some (v, n)) : 1 ≤ n ∧ n ≤ buf.length := by
  unfold fixed64_unpack at h
  split at h
  · simp only [Option.some.injEq, Prod.mk.injEq] at h
    obtain ⟨-, rfl⟩ := h
    refine ⟨by omega, ?_⟩
    simp only [List.length_cons]
    omega
  · exact absurd h (by simp)

theorem double_unpack_bounds (buf : List Nat) (v n : Nat)
    (h : double_unpack buf = some (v, n)) : 1 ≤ n ∧ n ≤ buf.length :=
  fixed64_unpack_bounds buf v n h

/-! ## Big-endian 32-bit words -/

theorem be_word_eq (b0 b1 b2 b3 : Nat)
    (h0 : b0 < 256) (h1 : b1 < 256) (h2 : b2 < 256) (h3 : b3 < 256) :
    b0 <<< 24 ||| b1 <<< 16 ||| b2 <<< 8 ||| b3 =
      b0 * 2 ^ 24 + b1 * 2 ^ 16 + b2 * 2 ^ 8 + b3 := by
  have e1 : (2 : Nat) ^ 8 * b2 ||| b3 = 2 ^ 8 * b2 + b3 :=
    (Nat.mul_add_lt_is_or h3 b2).symm
  have e2 : (2 : Nat) ^ 16 * b1 ||| (2 ^ 8 * b2 + b3) = 2 ^ 16 * b1 + (2 ^ 8 * b2 + b3) :=
    (Nat.mul_add_lt_is_or (by omega) b1).symm
  have e3 : (2 : Nat) ^ 24 * b0 ||| (2 ^ 16 * b1 + (2 ^ 8 * b2 + b3)) =
      2 ^ 24 * b0 + (2 ^ 16 * b1 + (2 ^ 8 * b2 + b3)) :=
    (Nat.mul_add_lt_is_or (by omega) b0).symm
  rw [Nat.shiftLeft_eq, Nat.shiftLeft_eq, Nat.shiftLeft_eq, Nat.or_assoc, Nat.or_assoc,
    mul_comm b0, mul_comm b1, mul_comm b2, e1, e2, e3]
  ring

theorem be32_roundtrip (n : Nat) (h : n < 2 ^ 32) :
    (be32 n).getD 0 0 <<< 24 ||| (be32 n).getD 1 0 <<< 16 |||
      (be32 n).getD 2 0 <<< 8 ||| (be32 n).getD 3 0 = n := by
  simp only [be32, List.getD_cons_zero, List.getD_cons_succ]
  rw [be_word_eq _ _ _ _ (Nat.mod_lt _ (by omega)) (Nat.mod_lt _ (by omega))
    (Nat.mod_lt _ (by omega)) (Nat.mod_lt _ (by omega))]
  rw [Nat.shiftRight_eq_div_pow, Nat.shiftRight_eq_div_pow, Nat.shiftRight_eq_div_pow]
  omega

/-! ## C4: key derivation -/

theorem sbkKeyRounds_spec (sha512 : List Nat → List Nat) (passphr salt : List Nat) :
    ∀ n r, sbkKeyRounds sha512 passphr n (specIterHash sha512 passphr salt r) =
      specIterHash sha512 passphr salt (r + n) := by
  intro n
  induction n with
  | zero => intro r; rfl
  | succ n ih =>
    intro r
    have : sha512 (specIterHash sha512 passphr salt r ++ passphr) =
        specIterHash sha512 passphr salt (r + 1) := rfl
    rw [sbkKeyRounds, this, ih]
    congr 1
    omega

/-- C4: key derivation iterates SHA-512 for 250,000 rounds (round 0 over
salt ‖ passphrase ‖ passphrase, later rounds over the previous digest ‖
passphrase), takes the first 32 bytes, expands them with HKDF-SHA-256
(empty salt, info "Backup Export") to 64 bytes, and splits the result
into the 32-byte AES key and the 32-byte MAC key. -/
theorem compute_keys_spec (sha512 : List Nat → List Nat)
    (hkdf : List Nat → List Nat → List Nat → Nat → List Nat)
    (passphr : List Nat) (salt : Option (List Nat)) :
    sbk_compute_keys sha512 hkdf passphr salt = spec_compute_keys sha512 hkdf passphr salt := by
  cases salt with
  | none =>
    have key_eq : sbkKeyRounds sha512 passphr (250000 - 1)
        (sha512 ([] ++ passphr ++ passphr)) = specIterHash sha512 passphr [] 249999 := by
      have h0 : sha512 ([] ++ passphr ++ passphr) = specIterHash sha512 passphr [] 0 := rfl
      rw [h0, sbkKeyRounds_spec]
    simp only [sbk_compute_keys, spec_compute_keys, Option.getD_none, key_eq]
  | some s =>
    have key_eq : sbkKeyRounds sha512 passphr (250000 - 1)
        (sha512 (s ++ passphr ++ passphr)) = specIterHash sha512 passphr s 249999 := by
      have h0 : sha512 (s ++ passphr ++ passphr) = specIterHash sha512 passphr s 0 := rfl
      rw [h0, sbkKeyRounds_spec]
    simp only [sbk_compute_keys, spec_compute_keys, Option.getD_some, key_eq]

/-! ## C10: the record length check -/

/-- C10: the 4-byte big-endian record length is interpreted as a signed
32-bit value; a record whose length field is zero or at least `2 ^ 31` is
rejected with "Invalid frame size" regardless of what follows (no payload
bytes are read), and an accepted record reads exactly that many payload
bytes — so no frame longer than `2 ^ 31 - 1` bytes is ever accepted. -/
theorem read_frame_length_check (pre rest : List Nat) (b0 b1 b2 b3 : Nat)
    (h0 : b0 < 256) (h1 : b1 < 256) (h2 : b2 < 256) (h3 : b3 < 256) :
    sbk_read_frame (pre ++ b0 :: b1 :: b2 :: b3 :: rest) pre.length =
      (if b0 * 2 ^ 24 + b1 * 2 ^ 16 + b2 * 2 ^ 8 + b3 = 0 ∨
          2 ^ 31 ≤ b0 * 2 ^ 24 + b1 * 2 ^ 16 + b2 * 2 ^ 8 + b3 then
        .error "Invalid frame size"
      else if b0 * 2 ^ 24 + b1 * 2 ^ 16 + b2 * 2 ^ 8 + b3 ≤ rest.length then
        .ok (rest.take (b0 * 2 ^ 24 + b1 * 2 ^ 16 + b2 * 2 ^ 8 + b3),
          pre.length + 4 + (b0 * 2 ^ 24 + b1 * 2 ^ 16 + b2 * 2 ^ 8 + b3))
      else .error "Unexpected end of file") := by
  set v := b0 * 2 ^ 24 + b1 * 2 ^ 16 + b2 * 2 ^ 8 + b3 with hv
  have hv32 : v < 2 ^ 32 := by omega
  unfold sbk_read_frame sbk_read
  have hlen : (pre ++ b0 :: b1 :: b2 :: b3 :: rest).length =
      pre.length + (4 + rest.length) := by
    simp only [List.length_append, List.length_cons]
    omega
  rw [if_pos (by omega)]
  have hdrop : (pre ++ b0 :: b1 :: b2 :: b3 :: rest).drop pre.length =
      b0 :: b1 :: b2 :: b3 :: rest := List.drop_left pre _
  rw [hdrop]
  simp only [List.take_succ_cons, List.take_zero, List.getD_cons_zero, List.getD_cons_succ]
  rw [be_word_eq b0 b1 b2 b3 h0 h1 h2 h3, ← hv]
  by_cases hbad : v = 0 ∨ 2 ^ 31 ≤ v
  · rw [if_pos hbad]
    have : (if v < 2 ^ 31 then (v : Int) else (v : Int) - 2 ^ 32) ≤ 0 := by
      split <;> omega
    rw [if_pos this]
  · rw [if_neg hbad]
    push_neg at hbad
    have hvlt : v < 2 ^ 31 := hbad.2
    have : ¬ (if v < 2 ^ 31 then (v : Int) else (v : Int) - 2 ^ 32) ≤ 0 := by
      rw [if_pos hvlt]
      omega
    rw [if_neg this]
    by_cases hfit : v ≤ rest.length
    · rw [if_pos (by omega), if_pos hfit]
      have : (pre ++ b0 :: b1 :: b2 :: b3 :: rest).drop (pre.length + 4) = rest := by
        have : pre ++ b0 :: b1 :: b2 :: b3 :: rest =
            (pre ++ [b0, b1, b2, b3]) ++ rest := by simp
        rw [this, show pre.length + 4 = (pre ++ [b0, b1, b2, b3]).length by simp]
        exact List.drop_left _ _
      rw [this]
    · rw [if_neg (by omega), if_neg hfit]

/-- Witness for the record length check: a length field of `0x80000000` is
rejected (even though payload bytes follow), and a length field of 2 reads
exactly two payload bytes. -/
theorem read_frame_length_check_witness :
    sbk_read_frame ([9] ++ 128 :: 0 :: 0 :: 0 :: [1, 2, 3]) 1 = .error "Invalid frame size" ∧
    sbk_read_frame ([] ++ 0 :: 0 :: 0 :: 2 :: [7, 8, 9]) 0 = .ok ([7, 8], 6) := by
  constructor
  · have h := read_frame_length_check [9] [1, 2, 3] 128 0 0 0
      (by decide) (by decide) (by decide) (by decide)
    simp only [List.length_cons, List.length_nil] at h
    rw [h]
    decide
  · have h := read_frame_length_check [] [7, 8, 9] 0 0 0 2
      (by decide) (by decide) (by decide) (by decide)
    simp only [List.length_nil] at h
    rw [h]
    decide

/-! ## C9: statement replay -/

theorem lowerByte_eq_zero (b : Nat) : lowerByte b = 0 ↔ b = 0 := by
  unfold lowerByte
  split <;> omega

theorem strncasecmpEq_iff : ∀ (n : Nat) (s pat : List Nat), pat.length = n →
    (∀ b ∈ pat, b ≠ 0) →
    (strncasecmpEq n s pat = true ↔ (s.take n).map lowerByte = pat.map lowerByte) := by
  intro n
  induction n with
  | zero =>
    intro s pat hlen _
    rw [List.length_eq_zero] at hlen
    subst hlen
    simp [strncasecmpEq]
  | succ n ih =>
    intro s pat hlen hz
    match pat, hlen with
    | p :: pr, hlen =>
      have hp : p ≠ 0 := hz p (by simp)
      have hpl : lowerByte p ≠ 0 := fun h => hp ((lowerByte_eq_zero p).mp h)
      cases s with
      | nil =>
        simp only [strncasecmpEq, List.headD_nil, List.headD_cons, List.take_nil,
          List.map_nil]
        rw [if_pos (show lowerByte 0 ≠ lowerByte p from
          fun h => hpl (h.symm.trans (by rfl)))]
        simp
      | cons a s' =>
        simp only [strncasecmpEq, List.headD_cons, List.tail_cons, List.take_succ_cons,
          List.map_cons]
        by_cases hab : lowerByte a = lowerByte p
        · have ha : a ≠ 0 := by
            intro h0a
            subst h0a
            exact hpl (hab.symm.trans (by rfl))
          rw [if_neg (by simpa using hab), if_neg ha]
          rw [ih s' pr (by simpa using hlen) (fun b hb => hz b (by simp [hb]))]
          constructor
          · intro h
            rw [hab, h]
          · intro h
            injection h
        · rw [if_pos (by simpa using hab)]
          constructor
          · intro h
            exact absurd h (by simp)
          · intro h
            injection h with h1 _
            exact absurd h1 hab

/-- C9: a statement whose SQL text begins, case-insensitively, with
`create table sqlite_` is skipped without executing anything and without an
error; every other statement is prepared, has its parameters bound
positionally by variant (`sbk_bind_params` binds parameter `i` at SQL index
`i + 1`), and is executed.  `stmt` is the statement's NUL-free byte text. -/
theorem exec_statement_skip (db : DbState) (sql : SqlStatement) (stmt : List Nat)
    (hstmt : sql.statement = some stmt) (hz : ∀ b ∈ stmt, b ≠ 0) :
    (beginsCreateTableSqlite stmt → sbk_exec_statement db sql = .ok db) ∧
    (¬ beginsCreateTableSqlite stmt →
      sbk_exec_statement db sql =
        match sbk_bind_params sql.parameters with
        | .error e => .error e
        | .ok vals => .ok ⟨db.version, db.ops ++ [.exec stmt vals]⟩) := by
  have hlit : createTableSqliteBytes.map lowerByte = createTableSqliteBytes := by decide
  have hiff := strncasecmpEq_iff 20 stmt createTableSqliteBytes (by decide) (by decide)
  rw [hlit] at hiff
  simp only [sbk_exec_statement, hstmt]
  constructor
  · intro hp
    rw [if_pos (hiff.mpr hp)]
  · intro hp
    rw [if_neg (fun heq => hp (hiff.mp heq))]

/-- Witness for C9: `"CREATE TABLE SQLITE_stat1 (x)"` is skipped, and an
`INSERT` with one integer parameter is bound and executed. -/
theorem exec_statement_skip_witness :
    sbk_exec_statement ⟨7, []⟩ ⟨some ("CREATE TABLE SQLITE_stat1 (x)".data.map Char.toNat), []⟩ =
      .ok ⟨7, []⟩ ∧
    sbk_exec_statement ⟨7, []⟩
        ⟨some ("INSERT INTO x VALUES (?)".data.map Char.toNat),
         [⟨none, some 42, none, none, none⟩]⟩ =
      .ok ⟨7, [.exec ("INSERT INTO x VALUES (?)".data.map Char.toNat) [.int 42]]⟩ := by
  constructor
  · exact (exec_statement_skip ⟨7, []⟩ _ _ rfl (by decide)).1 (by decide)
  · rw [(exec_statement_skip ⟨7, []⟩ _ _ rfl (by decide)).2 (by decide)]
    rfl

/-! ## C7: attachment rows and the FileRef index -/

/-- C7: for a part row with `pending_push == ATTACHMENT_TRANSFER_DONE` (0),
building the attachment succeeds exactly when a FileRef is recorded under
`(rowid, attachmentid)` and the row's `data_size` equals its length — and the
built attachment carries that FileRef; for a row with any other status no
FileRef is required and the attachment is built with no file. -/
theorem get_attachment_fileref (tree : List AttachmentEntry) (row : PartRow) :
    (row.status = SBK_ATTACHMENT_TRANSFER_DONE →
      ((∃ att, sbk_get_attachment tree row = .ok att) ↔
        (∃ f, sbk_get_attachment_file tree row.rowid row.attachmentid = some (some f) ∧
          row.size = (f.len : Int)))) ∧
    (row.status ≠ SBK_ATTACHMENT_TRANSFER_DONE →
      sbk_get_attachment tree row =
        .ok ⟨row.filename, row.content_type, row.rowid, row.attachmentid,
          row.status, row.size, none⟩) := by
  constructor
  · intro hs
    cases hfind : sbk_get_attachment_file tree row.rowid row.attachmentid with
    | none => simp [sbk_get_attachment, hs, hfind]
    | some fo =>
      cases fo with
      | none => simp [sbk_get_attachment, hs, hfind]
      | some f =>
        by_cases hsz : row.size = (f.len : Int)
        · simp [sbk_get_attachment, hs, hfind, hsz]
        · simp [sbk_get_attachment, hs, hfind, hsz]
  · intro hs
    unfold sbk_get_attachment
    rw [if_neg hs]

/-- Witness for C7: a DONE row with a matching FileRef succeeds; a row with
status 1 succeeds with no FileRef attached. -/
theorem get_attachment_fileref_witness :
    (∃ att, sbk_get_attachment [⟨3, 4, some ⟨100, 7, 9⟩⟩] ⟨none, none, 3, 4, 0, 7⟩ = .ok att) ∧
    sbk_get_attachment [] ⟨none, none, 3, 4, 1, 7⟩ =
      .ok ⟨none, none, 3, 4, 1, 7, none⟩ := by
  constructor
  · exact (get_attachment_fileref [⟨3, 4, some ⟨100, 7, 9⟩⟩] ⟨none, none, 3, 4, 0, 7⟩).1
      (by decide) |>.mpr ⟨⟨100, 7, 9⟩, by decide, by decide⟩
  · exact (get_attachment_fileref [] ⟨none, none, 3, 4, 1, 7⟩).2 (by decide)

/-! ## C6: mention substitution -/

theorem isPrefixOf_length : ∀ (l₁ l₂ : List Nat), l₁.isPrefixOf l₂ = true →
    l₁.length ≤ l₂.length := by
  intro l₁
  induction l₁ with
  | nil => intro l₂ _; simp
  | cons a as ih =>
    intro l₂ h
    cases l₂ with
    | nil => simp [List.isPrefixOf] at h
    | cons b bs =>
      simp only [List.isPrefixOf, Bool.and_eq_true] at h
      have := ih bs h.2
      simp only [List.length_cons]
      omega

theorem strstrIdx_bound : ∀ (hay pat : List Nat) (i : Nat),
    strstrIdx hay pat = some i → i + pat.length ≤ hay.length := by
  intro hay
  induction hay with
  | nil =>
    intro pat i h
    simp only [strstrIdx] at h
    split at h
    · simp only [Option.some.injEq] at h
      simp_all [List.isEmpty_iff]
    · exact absurd h (by simp)
  | cons b t ih =>
    intro pat i h
    simp only [strstrIdx] at h
    split at h
    · next hpre =>
      simp only [Option.some.injEq] at h
      subst h
      simpa using isPrefixOf_length pat (b :: t) hpre
    · cases hrec : strstrIdx t pat with
      | none => rw [hrec] at h; exact absurd h (by simp)
      | some j =>
        rw [hrec] at h
        simp only [Option.map_some', Option.some.injEq] at h
        subst h
        have := ih pat j hrec
        simp only [List.length_cons]
        omega

theorem substLoop_eq_spec : ∀ (names : List (List Nat)) (text : List Nat),
    mentionsSubstLoop names text = substMentionsSpec names text := by
  intro names
  induction names with
  | nil => intro text; rfl
  | cons n rest ih =>
    intro text
    simp only [mentionsSubstLoop, substMentionsSpec]
    cases strstrIdx text mentionPlaceholder with
    | none => rfl
    | some i => simp only [ih]

theorem substLoop_lenLoop : ∀ (names : List (List Nat)) (text r : List Nat) (k : Nat),
    mentionsSubstLoop names text = some r →
    mentionsLenLoop names (text.length + k) = some (r.length + k) := by
  intro names
  induction names with
  | nil =>
    intro text r k h
    simp only [mentionsSubstLoop] at h
    split at h
    · exact absurd h (by simp)
    · simp only [Option.some.injEq] at h
      subst h
      rfl
  | cons n rest ih =>
    intro text r k h
    simp only [mentionsSubstLoop] at h
    cases hfind : strstrIdx text mentionPlaceholder with
    | none => simp only [hfind] at h; exact absurd h (by simp)
    | some i =>
      simp only [hfind] at h
      cases hrec : mentionsSubstLoop rest (text.drop (i + 3)) with
      | none =>
        simp only [hrec, Option.map_none'] at h
        exact absurd h (by simp)
      | some tail2 =>
        simp only [hrec, Option.map_some', Option.some.injEq] at h
        subst h
        have hbound := strstrIdx_bound text mentionPlaceholder i hfind
        simp only [mentionPlaceholder, List.length_cons, List.length_nil] at hbound
        have hlen3 : ¬ text.length + k < 3 := by omega
        simp only [mentionsLenLoop, if_neg hlen3]
        have := ih (text.drop (i + 3)) tail2 (k + i + 1 + n.length) hrec
        simp only [List.length_drop] at this
        rw [show text.length + k - 3 + 1 + n.length =
          text.length - (i + 3) + (k + i + 1 + n.length) by omega]
        rw [this]
        congr 1
        simp only [List.length_append, List.length_take, List.length_cons, List.length_nil]
        omega

/-- C6 counterexample: at schema version 68 a message whose text is a single
U+FFFC placeholder but which has no mention rows is accepted unchanged — the
leftover placeholder does not raise an error, because `sbk_insert_mentions`
returns before any placeholder check when the mention list is empty. -/
theorem insert_mentions_counterexample :
    sbk_insert_mentions mentionPlaceholder (sbk_get_mentions_for_message 68 []) =
      .ok mentionPlaceholder ∧
    (strstrIdx mentionPlaceholder mentionPlaceholder).isSome = true := by
  decide

/-- C6 (amended): when at least one mention is present, `sbk_insert_mentions`
replaces each successive U+FFFC placeholder with `"@"` followed by the
mention's display name, and fails with an error if a mention has no matching
placeholder or a placeholder remains after all mentions are consumed.  (With
zero mentions the text is returned unchanged with no placeholder check.) -/
theorem insert_mentions_subst (text : List Nat) (names : List (List Nat))
    (hne : names ≠ []) :
    sbk_insert_mentions text names =
      match substMentionsSpec names text with
      | some r => .ok r
      | none => .error "Invalid mention in message" := by
  unfold sbk_insert_mentions
  rw [if_neg (by simpa using hne)]
  cases hspec : substMentionsSpec names text with
  | some r =>
    have hl : mentionsSubstLoop names text = some r :=
      (substLoop_eq_spec names text).trans hspec
    have hlen := substLoop_lenLoop names text r 0 hl
    rw [show text.length + 0 = text.length by omega] at hlen
    rw [hlen, hl]
  | none =>
    have hl : mentionsSubstLoop names text = none :=
      (substLoop_eq_spec names text).trans hspec
    cases hlenloop : mentionsLenLoop names text.length with
    | none => rfl
    | some L => rw [hl]

/-- Witness for the amended C6: `"Hi ￼!"` with one mention named `"A"`
becomes `"Hi @A!"`. -/
theorem insert_mentions_subst_witness :
    sbk_insert_mentions [72, 105, 32, 0xef, 0xbf, 0xbc, 33] [[65]] =
      .ok [72, 105, 32, 0x40, 65, 33] := by
  rw [insert_mentions_subst _ _ (by decide)]
  decide

/-! ## C2 and C5: what the HMAC is computed over -/

theorem error_ne_of_ne {α : Type} {e1 e2 : String} (h : e1 ≠ e2) :
    (Except.error e1 : Except String α) ≠ .error e2 :=
  fun hh => h (Except.error.inj hh)

theorem ok_ne_error {α : Type} (a : α) (e : String) :
    (Except.ok a : Except String α) ≠ .error e :=
  fun hh => Except.noConfusion hh

theorem get_file_len_error_ne (frm : BackupFrame) (e : String)
    (h : sbk_get_file_len frm = .error e) : e ≠ "HMAC mismatch" := by
  unfold sbk_get_file_len at h
  repeat' split at h
  all_goals first
    | exact Except.noConfusion h
    | (injection h with h1; subst h1; decide)

/-- The authentication check of the frame iterator: an encrypted frame fails
with "HMAC mismatch" exactly when the first 10 bytes of the HMAC of the
*ciphertext alone* differ from the record's trailing 10 bytes.  (Shared by
the C2 and C5 theorems.) -/
theorem getFrame_mac_check (c : Crypto) (file : List Nat) (ctx : SbkCtx)
    (ibuf : List Nat) (pos1 : Nat) (wantFile : Bool)
    (heof : ctx.eof = false) (hff : ctx.firstframe = false)
    (hread : sbk_read_frame file ctx.pos = .ok (ibuf, pos1)) (hlen : 10 < ibuf.length) :
    (sbk_get_frame c file ctx wantFile = .error "HMAC mismatch" ↔
      (c.hmac (ibuf.take (ibuf.length - 10))).take 10 ≠ ibuf.drop (ibuf.length - 10)) := by
  unfold sbk_get_frame
  rw [heof, hread, hff]
  simp only [Bool.false_eq_true, if_false]
  rw [if_neg (by omega : ¬ ibuf.length ≤ 10)]
  by_cases hmac : (c.hmac (ibuf.take (ibuf.length - 10))).take 10 = ibuf.drop (ibuf.length - 10)
  · rw [if_neg (by simpa using hmac)]
    refine iff_of_false ?_ (by simpa using hmac)
    split
    · exact error_ne_of_ne (by decide)
    · split
      · split
        · split
          · next e he => exact error_ne_of_ne (get_file_len_error_ne _ _ he)
          · split
            · exact error_ne_of_ne (by decide)
            · exact ok_ne_error _ _
        · split
          · exact error_ne_of_ne (by decide)
          · exact ok_ne_error _ _
      · exact ok_ne_error _ _
  · rw [if_pos (by simpa using hmac)]
    exact iff_of_true rfl hmac

/-- C2 counterexample: a concrete encrypted frame whose trailing tag equals
the (truncated) HMAC of the ciphertext alone — and therefore does *not*
equal the HMAC over IV ‖ ciphertext — is accepted by the frame iterator
without an authentication error. -/
theorem frame_mac_no_iv_counterexample :
    (sbk_get_frame ⟨fun bs => List.replicate 10 (bs.sum % 256), fun _ _ => 0⟩
        ([0, 0, 0, 12] ++ [0x30, 0x01] ++ List.replicate 10 49)
        ⟨0, 5, List.replicate 16 7, false, false⟩ false =
      .ok (some (⟨⟨none, none, none, none, none, some true, none, none⟩, none⟩,
        ⟨16, 6, List.replicate 16 7, false, true⟩))) ∧
    ((⟨fun bs => List.replicate 10 (bs.sum % 256), fun _ _ => 0⟩ : Crypto).hmac
        (ivFor (List.replicate 16 7) 5 ++ [0x30, 0x01])).take 10 ≠
      List.replicate 10 49 := by
  constructor
  · decide
  · decide

/-- C2 (amended): for every encrypted frame read by the frame iterator the
trailing 10-byte tag is compared against the first 10 bytes of
HMAC-SHA-256(mackey, ciphertext) — the IV is *not* part of the HMAC input —
and a mismatch aborts the operation with the authentication error
"HMAC mismatch". -/
theorem frame_mac_over_ciphertext (c : Crypto) (file : List Nat) (ctx : SbkCtx)
    (ibuf : List Nat) (pos1 : Nat)
    (heof : ctx.eof = false) (hff : ctx.firstframe = false)
    (hread : sbk_read_frame file ctx.pos = .ok (ibuf, pos1)) (hlen : 10 < ibuf.length) :
    sbk_get_frame c file ctx false = .error "HMAC mismatch" ↔
      (c.hmac (ibuf.take (ibuf.length - 10))).take 10 ≠ ibuf.drop (ibuf.length - 10) :=
  getFrame_mac_check c file ctx ibuf pos1 false heof hff hread hlen

/-- Witness for the amended C2: a frame with a wrong tag is rejected with
"HMAC mismatch". -/
theorem frame_mac_over_ciphertext_witness :
    sbk_get_frame ⟨fun bs => List.replicate 10 (bs.sum % 256), fun _ _ => 0⟩
        ([0, 0, 0, 12] ++ [0x30, 0x01] ++ List.replicate 10 50)
        ⟨0, 5, List.replicate 16 7, false, false⟩ false = .error "HMAC mismatch" := by
  refine (frame_mac_over_ciphertext _ _ ⟨0, 5, List.replicate 16 7, false, false⟩
    ([0x30, 0x01] ++ List.replicate 10 50) 16 rfl rfl ?_ (by decide)).mpr (by decide)
  decide

theorem xorKs_append (c : Crypto) (ctr off : Nat) (a b : List Nat) :
    xorKs c ctr off (a ++ b) = xorKs c ctr off a ++ xorKs c ctr (off + a.length) b := by
  unfold xorKs
  rw [List.mapIdx_append]
  have hfun : (fun i b' => (b' ^^^ c.ks ctr (off + (i + a.length))) % 256) =
      fun i b' => (b' ^^^ c.ks ctr (off + a.length + i)) % 256 := by
    funext i x
    have : off + (i + a.length) = off + a.length + i := by omega
    rw [this]
  rw [hfun]

/-- Running the `BUFSIZ`-chunked loop to completion reads exactly the payload
region, feeds exactly those bytes to the HMAC, and decrypts them with the
keystream from offset `off`. -/
theorem file_loop_run (c : Crypto) (file : List Nat) (ctr : Nat) :
    ∀ (fuel len pos off : Nat) (fed out : List Nat), len ≤ fuel →
    pos + len ≤ file.length →
    sbk_file_loop c file ctr fuel pos off len fed out =
      .ok (fed ++ (file.drop pos).take len,
           out ++ xorKs c ctr off ((file.drop pos).take len), pos + len) := by
  intro fuel
  induction fuel with
  | zero =>
    intro len pos off fed out hl hp
    have h0 : len = 0 := by omega
    subst h0
    simp [sbk_file_loop, xorKs]
  | succ fuel ih =>
    intro len pos off fed out hl hp
    cases len with
    | zero => simp [sbk_file_loop, xorKs]
    | succ k =>
      have hread : sbk_read file pos (if k + 1 < 1024 then k + 1 else 1024) =
          .ok ((file.drop pos).take (if k + 1 < 1024 then k + 1 else 1024)) := by
        unfold sbk_read
        rw [if_pos (by split <;> omega)]
      simp only [sbk_file_loop, hread]
      set ibuflen := if k + 1 < 1024 then k + 1 else 1024 with hib
      have hible : 1 ≤ ibuflen ∧ ibuflen ≤ k + 1 := by
        rw [hib]; split <;> omega
      rw [ih (k + 1 - ibuflen) (pos + ibuflen) (off + ibuflen) _ _ (by omega) (by omega)]
      have hchunklen : ((file.drop pos).take ibuflen).length = ibuflen := by
        simp only [List.length_take, List.length_drop]
        omega
      have hsplit : (file.drop pos).take (k + 1) =
          (file.drop pos).take ibuflen ++ ((file.drop (pos + ibuflen)).take (k + 1 - ibuflen)) := by
        conv_lhs => rw [show k + 1 = ibuflen + (k + 1 - ibuflen) by omega]
        rw [List.take_add, List.drop_drop]
      rw [hsplit, xorKs_append, hchunklen,
        show pos + ibuflen + (k + 1 - ibuflen) = pos + (k + 1) by omega]
      simp [List.append_assoc]

/-- C5: extracting a file payload (`sbk_write_file`, and reading it as a
string with `sbk_get_file_as_string`, which performs the identical
computation) feeds the 16-byte IV into the HMAC *before* the ciphertext,
while frame decryption feeds the ciphertext only; in both cases
verification compares the first 10 HMAC bytes with the trailing 10 stored
bytes and a mismatch is the authentication error "HMAC mismatch". -/
theorem file_payload_mac_iv (c : Crypto) (file iv : List Nat) (f : SbkFile)
    (hbound : f.pos + f.len + 10 ≤ file.length) :
    (sbk_write_file c file iv f =
      if (c.hmac (ivFor iv f.counter ++ (file.drop f.pos).take f.len)).take 10 =
          (file.drop (f.pos + f.len)).take 10
      then .ok (xorKs c f.counter 0 ((file.drop f.pos).take f.len))
      else .error "HMAC mismatch") ∧
    (sbk_get_file_as_string c file iv f = sbk_write_file c file iv f) ∧
    (∀ (ctx : SbkCtx) (ibuf : List Nat) (pos1 : Nat), ctx.eof = false →
      ctx.firstframe = false → sbk_read_frame file ctx.pos = .ok (ibuf, pos1) →
      10 < ibuf.length →
      (sbk_get_frame c file ctx false = .error "HMAC mismatch" ↔
        (c.hmac (ibuf.take (ibuf.length - 10))).take 10 ≠ ibuf.drop (ibuf.length - 10))) := by
  refine ⟨?_, rfl, ?_⟩
  · unfold sbk_write_file
    rw [file_loop_run c file f.counter f.len f.len f.pos 0 _ [] (le_refl _) (by omega)]
    have hmacread : sbk_read file (f.pos + f.len) 10 =
        .ok ((file.drop (f.pos + f.len)).take 10) := by
      unfold sbk_read
      rw [if_pos (by omega)]
    simp only [hmacread, List.nil_append]
    by_cases hmac : (c.hmac (ivFor iv f.counter ++ (file.drop f.pos).take f.len)).take 10 =
        (file.drop (f.pos + f.len)).take 10
    · rw [if_neg (by simpa using hmac), if_pos hmac]
    · rw [if_pos (by simpa using hmac), if_neg hmac]
  · intro ctx ibuf pos1 heof hff hread hlen
    exact getFrame_mac_check c file ctx ibuf pos1 false heof hff hread hlen

/-- Witness for C5: a concrete 3-byte payload whose tag was computed over
IV ‖ ciphertext decrypts successfully via both extraction functions. -/
theorem file_payload_mac_iv_witness :
    sbk_write_file ⟨fun bs => List.replicate 10 (bs.sum % 256), fun _ _ => 0⟩
        ([1, 2, 3] ++ List.replicate 10 6) (List.replicate 16 0) ⟨0, 3, 0⟩ =
      .ok [1, 2, 3] ∧
    sbk_get_file_as_string ⟨fun bs => List.replicate 10 (bs.sum % 256), fun _ _ => 0⟩
        ([1, 2, 3] ++ List.replicate 10 6) (List.replicate 16 0) ⟨0, 3, 0⟩ =
      .ok [1, 2, 3] := by
  have h := file_payload_mac_iv ⟨fun bs => List.replicate 10 (bs.sum % 256), fun _ _ => 0⟩
    ([1, 2, 3] ++ List.replicate 10 6) (List.replicate 16 0) ⟨0, 3, 0⟩ (by decide)
  refine ⟨?_, ?_⟩
  · rw [h.1]
    decide
  · rw [h.2.1, h.1]
    decide

/-! ## C8: the decoder rejects duplicate and unknown fields -/

theorem countTok_cons (g f w : Nat) (toks : List (Nat × Nat)) :
    countTok g ((f, w) :: toks) = (if f = g then 1 else 0) + countTok g toks := by
  unfold countTok
  by_cases h : f = g
  · simp [List.filter_cons, h]
    omega
  · simp [List.filter_cons, h]

theorem bool_unpack_varint (buf : List Nat) (v : Bool) (m : Nat)
    (h : bool_unpack buf = some (v, m)) : ∃ v', varint_unpack buf = some (v', m) := by
  unfold bool_unpack at h
  split at h
  · exact absurd h (by simp)
  · next v' m' heq =>
    simp only [Option.some.injEq, Prod.mk.injEq] at h
    exact ⟨v', by rw [heq, h.2]⟩

theorem uint32_unpack_varint (buf : List Nat) (v m : Nat)
    (h : uint32_unpack buf = some (v, m)) : varint_unpack buf = some (v, m) := by
  unfold uint32_unpack at h
  split at h
  · exact absurd h (by simp)
  · next v' m' heq =>
    split at h
    · exact absurd h (by simp)
    · simp only [Option.some.injEq, Prod.mk.injEq] at h
      rw [heq, h.1, h.2]

theorem double_unpack_eight (buf : List Nat) (v m : Nat)
    (h : double_unpack buf = some (v, m)) : m = 8 ∧ 8 ≤ buf.length := by
  have hb := double_unpack_bounds buf v m h
  unfold double_unpack fixed64_unpack at h
  split at h
  · simp only [Option.some.injEq, Prod.mk.injEq] at h
    exact ⟨h.2.symm, by omega⟩
  · exact absurd h (by simp)

/-- Assembling the induction step of the duplicate/unknown-field invariant:
a known field `f0` that was not yet set is consumed once. -/
theorem count_step (hi f0 w : Nat) (hf0 : 1 ≤ f0 ∧ f0 ≤ hi) (toks' : List (Nat × Nat))
    (flagOld flagNew : Nat → Bool)
    (hflag : flagOld f0 = false)
    (hflag' : flagNew f0 = true)
    (hsame : ∀ g, g ≠ f0 → flagNew g = flagOld g)
    (ihc : ∀ t ∈ toks', 1 ≤ t.1 ∧ t.1 ≤ hi)
    (ihn : ∀ g, countTok g toks' + (if flagNew g then 1 else 0) ≤ 1) :
    (∀ t ∈ (f0, w) :: toks', 1 ≤ t.1 ∧ t.1 ≤ hi) ∧
    (∀ g, countTok g ((f0, w) :: toks') + (if flagOld g then 1 else 0) ≤ 1) := by
  constructor
  · intro t ht
    rcases List.mem_cons.mp ht with rfl | ht'
    · exact hf0
    · exact ihc t ht'
  · intro g
    rw [countTok_cons]
    by_cases hg : f0 = g
    · subst hg
      have hn := ihn f0
      rw [hflag'] at hn
      rw [hflag]
      simp only [if_pos rfl, if_pos] at hn ⊢
      simp only [Bool.false_eq_true, if_false]
      omega
    · have hn := ihn g
      rw [hsame g (fun hh => hg hh.symm)] at hn
      rw [if_neg hg]
      omega

/-- One unfolding step of `backupFrameLoop` on a non-empty buffer. -/
theorem backupFrameLoop_cons (fuel : Nat) (b : Nat) (rest : List Nat) (acc : BackupFrame) :
    backupFrameLoop (fuel + 1) (b :: rest) acc =
      match tag_unpack (b :: rest) with
      | none => none
      | some (fieldnum, wiretype, n) =>
        let buf1 := (b :: rest).drop n
        if fieldnum = 1 then
          if acc.header.isSome then none
          else if wiretype ≠ 2 then none
          else match fieldlen_unpack buf1 with
            | none => none
            | some (fieldlen, m) =>
              let buf2 := buf1.drop m
              match signal__header__unpack (buf2.take fieldlen) with
              | none => none
              | some sub =>
                backupFrameLoop fuel (buf2.drop fieldlen) { acc with header := some sub }
        else if fieldnum = 2 then
          if acc.statement.isSome then none
          else if wiretype ≠ 2 then none
          else match fieldlen_unpack buf1 with
            | none => none
            | some (fieldlen, m) =>
              let buf2 := buf1.drop m
              match signal__sql_statement__unpack (buf2.take fieldlen) with
              | none => none
              | some sub =>
                backupFrameLoop fuel (buf2.drop fieldlen) { acc with statement := some sub }
        else if fieldnum = 3 then
          if acc.preference.isSome then none
          else if wiretype ≠ 2 then none
          else match fieldlen_unpack buf1 with
            | none => none
            | some (fieldlen, m) =>
              let buf2 := buf1.drop m
              match signal__shared_preference__unpack (buf2.take fieldlen) with
              | none => none
              | some sub =>
                backupFrameLoop fuel (buf2.drop fieldlen) { acc with preference := some sub }
        else if fieldnum = 4 then
          if acc.attachment.isSome then none
          else if wiretype ≠ 2 then none
          else match fieldlen_unpack buf1 with
            | none => none
            | some (fieldlen, m) =>
              let buf2 := buf1.drop m
              match signal__attachment__unpack (buf2.take fieldlen) with
              | none => none
              | some sub =>
                backupFrameLoop fuel (buf2.drop fieldlen) { acc with attachment := some sub }
        else if fieldnum = 5 then
          if acc.version.isSome then none
          else if wiretype ≠ 2 then none
          else match fieldlen_unpack buf1 with
            | none => none
            | some (fieldlen, m) =>
              let buf2 := buf1.drop m
              match signal__database_version__unpack (buf2.take fieldlen) with
              | none => none
              | some sub =>
                backupFrameLoop fuel (buf2.drop fieldlen) { acc with version := some sub }
        else if fieldnum = 6 then
          if acc.endb.isSome then none
          else if wiretype ≠ 0 then none
          else match bool_unpack buf1 with
            | none => none
            | some (v, m) => backupFrameLoop fuel (buf1.drop m) { acc with endb := some v }
        else if fieldnum = 7 then
          if acc.avatar.isSome then none
          else if wiretype ≠ 2 then none
          else match fieldlen_unpack buf1 with
            | none => none
            | some (fieldlen, m) =>
              let buf2 := buf1.drop m
              match signal__avatar__unpack (buf2.take fieldlen) with
              | none => none
              | some sub =>
                backupFrameLoop fuel (buf2.drop fieldlen) { acc with avatar := some sub }
        else if fieldnum = 8 then
          if acc.sticker.isSome then none
          else if wiretype ≠ 2 then none
          else match fieldlen_unpack buf1 with
            | none => none
            | some (fieldlen, m) =>
              let buf2 := buf1.drop m
              match signal__sticker__unpack (buf2.take fieldlen) with
              | none => none
              | some sub =>
                backupFrameLoop fuel (buf2.drop fieldlen) { acc with sticker := some sub }
        else none := rfl

/-- One unfolding step of `tokenize` on a non-empty buffer. -/
theorem tokenize_cons (fuel : Nat) (b : Nat) (rest : List Nat) :
    tokenize (fuel + 1) (b :: rest) =
      match tag_unpack (b :: rest) with
      | none => none
      | some (f, w, n) =>
        let buf1 := (b :: rest).drop n
        match tokenBodyLen w buf1 with
        | none => none
        | some m => (tokenize fuel (buf1.drop m)).map ((f, w) :: ·) := rfl

set_option maxHeartbeats 2000000 in
/-- The duplicate/unknown-field invariant for `backupFrameLoop`: when a
buffer is accepted, its wire tokens use only field numbers 1–8 and each of
them at most once (counting a field already set in the accumulator). -/
theorem backupFrameLoop_tokens :
    ∀ (fuel : Nat) (buf : List Nat) (acc frm : BackupFrame) (toks : List (Nat × Nat)),
    backupFrameLoop fuel buf acc = some frm →
    tokenize fuel buf = some toks →
    (∀ t ∈ toks, 1 ≤ t.1 ∧ t.1 ≤ 8) ∧
    (∀ g, countTok g toks + (if bfFlag acc g then 1 else 0) ≤ 1) := by
  intro fuel
  induction fuel with
  | zero =>
    intro buf acc frm toks h htok
    cases buf with
    | nil =>
      simp only [tokenize, Option.some.injEq] at htok
      subst htok
      refine ⟨by simp, ?_⟩
      intro g
      unfold countTok
      simp only [List.filter_nil, List.length_nil, Nat.zero_add]
      split <;> omega
    | cons b rest =>
      rw [show backupFrameLoop 0 (b :: rest) acc = none from rfl] at h
      exact absurd h (by simp)
  | succ fuel ih =>
    intro buf acc frm toks h htok
    cases buf with
    | nil =>
      simp only [tokenize, Option.some.injEq] at htok
      subst htok
      refine ⟨by simp, ?_⟩
      intro g
      unfold countTok
      simp only [List.filter_nil, List.length_nil, Nat.zero_add]
      split <;> omega
    | cons b rest =>
      rw [backupFrameLoop_cons] at h
      rw [tokenize_cons] at htok
      cases htag : tag_unpack (b :: rest) with
      | none =>
        simp only [htag] at h
        exact absurd h (by simp)
      | some fwn =>
        obtain ⟨f, w, n⟩ := fwn
        simp only [htag] at h htok
        by_cases hf1 : f = 1
        · subst hf1
          rw [if_pos rfl] at h
          cases hflag : acc.header with
          | some x => simp [hflag] at h
          | none =>
            simp only [hflag, Option.isSome_none, Bool.false_eq_true, if_false] at h
            by_cases hw : w = 2
            · subst hw
              rw [if_neg (fun hh => hh rfl)] at h
              cases hfl : fieldlen_unpack ((b :: rest).drop n) with
              | none =>
                simp only [hfl] at h
                exact absurd h (by simp)
              | some lm =>
                obtain ⟨l, m⟩ := lm
                simp only [hfl] at h
                cases hsub : signal__header__unpack ((((b :: rest).drop n).drop m).take l) with
                | none =>
                  simp only [hsub] at h
                  exact absurd h (by simp)
                | some sub =>
                  simp only [hsub] at h
                  have hbody : tokenBodyLen 2 ((b :: rest).drop n) = some (m + l) := by
                    simp [tokenBodyLen, hfl]
                  simp only [hbody] at htok
                  rw [← List.drop_drop] at htok
                  cases htoks2 : tokenize fuel ((((b :: rest).drop n).drop m).drop l) with
                  | none => rw [htoks2] at htok; exact absurd htok (by simp)
                  | some toks2 =>
                    rw [htoks2] at htok
                    simp only [Option.map_some', Option.some.injEq] at htok
                    subst htok
                    obtain ⟨ihc, ihn⟩ := ih _ _ _ _ h htoks2
                    refine count_step 8 1 2 (by omega) toks2 (bfFlag acc)
                      (bfFlag { acc with header := some sub }) ?_ ?_ ?_ ihc ihn
                    · simp [bfFlag, hflag]
                    · simp [bfFlag]
                    · intro g hg
                      unfold bfFlag
                      split_ifs <;> first | rfl | (exact absurd (by assumption) hg)
            · rw [if_pos hw] at h
              exact absurd h (by simp)
        by_cases hf2 : f = 2
        · subst hf2
          rw [if_neg (by decide), if_pos rfl] at h
          cases hflag : acc.statement with
          | some x => simp [hflag] at h
          | none =>
            simp only [hflag, Option.isSome_none, Bool.false_eq_true, if_false] at h
            by_cases hw : w = 2
            · subst hw
              rw [if_neg (fun hh => hh rfl)] at h
              cases hfl : fieldlen_unpack ((b :: rest).drop n) with
              | none =>
                simp only [hfl] at h
                exact absurd h (by simp)
              | some lm =>
                obtain ⟨l, m⟩ := lm
                simp only [hfl] at h
                cases hsub : signal__sql_statement__unpack ((((b :: rest).drop n).drop m).take l) with
                | none =>
                  simp only [hsub] at h
                  exact absurd h (by simp)
                | some sub =>
                  simp only [hsub] at h
                  have hbody : tokenBodyLen 2 ((b :: rest).drop n) = some (m + l) := by
                    simp [tokenBodyLen, hfl]
                  simp only [hbody] at htok
                  rw [← List.drop_drop] at htok
                  cases htoks2 : tokenize fuel ((((b :: rest).drop n).drop m).drop l) with
                  | none => rw [htoks2] at htok; exact absurd htok (by simp)
                  | some toks2 =>
                    rw [htoks2] at htok
                    simp only [Option.map_some', Option.some.injEq] at htok
                    subst htok
                    obtain ⟨ihc, ihn⟩ := ih _ _ _ _ h htoks2
                    refine count_step 8 2 2 (by omega) toks2 (bfFlag acc)
                      (bfFlag { acc with statement := some sub }) ?_ ?_ ?_ ihc ihn
                    · simp [bfFlag, hflag]
                    · simp [bfFlag]
                    · intro g hg
                      unfold bfFlag
                      split_ifs <;> first | rfl | (exact absurd (by assumption) hg)
            · rw [if_pos hw] at h
              exact absurd h (by simp)
        by_cases hf3 : f = 3
        · subst hf3
          rw [if_neg (by decide), if_neg (by decide), if_pos rfl] at h
          cases hflag : acc.preference with
          | some x => simp [hflag] at h
          | none =>
            simp only [hflag, Option.isSome_none, Bool.false_eq_true, if_false] at h
            by_cases hw : w = 2
            · subst hw
              rw [if_neg (fun hh => hh rfl)] at h
              cases hfl : fieldlen_unpack ((b :: rest).drop n) with
              | none =>
                simp only [hfl] at h
                exact absurd h (by simp)
              | some lm =>
                obtain ⟨l, m⟩ := lm
                simp only [hfl] at h
                cases hsub : signal__shared_preference__unpack ((((b :: rest).drop n).drop m).take l) with
                | none =>
                  simp only [hsub] at h
                  exact absurd h (by simp)
                | some sub =>
                  simp only [hsub] at h
                  have hbody : tokenBodyLen 2 ((b :: rest).drop n) = some (m + l) := by
                    simp [tokenBodyLen, hfl]
                  simp only [hbody] at htok
                  rw [← List.drop_drop] at htok
                  cases htoks2 : tokenize fuel ((((b :: rest).drop n).drop m).drop l) with
                  | none => rw [htoks2] at htok; exact absurd htok (by simp)
                  | some toks2 =>
                    rw [htoks2] at htok
                    simp only [Option.map_some', Option.some.injEq] at htok
                    subst htok
                    obtain ⟨ihc, ihn⟩ := ih _ _ _ _ h htoks2
                    refine count_step 8 3 2 (by omega) toks2 (bfFlag acc)
                      (bfFlag { acc with preference := some sub }) ?_ ?_ ?_ ihc ihn
                    · simp [bfFlag, hflag]
                    · simp [bfFlag]
                    · intro g hg
                      unfold bfFlag
                      split_ifs <;> first | rfl | (exact absurd (by assumption) hg)
            · rw [if_pos hw] at h
              exact absurd h (by simp)
        by_cases hf4 : f = 4
        · subst hf4
          rw [if_neg (by decide), if_neg (by decide), if_neg (by decide), if_pos rfl] at h
          cases hflag : acc.attachment with
          | some x => simp [hflag] at h
          | none =>
            simp only [hflag, Option.isSome_none, Bool.false_eq_true, if_false] at h
            by_cases hw : w = 2
            · subst hw
              rw [if_neg (fun hh => hh rfl)] at h
              cases hfl : fieldlen_unpack ((b :: rest).drop n) with
              | none =>
                simp only [hfl] at h
                exact absurd h (by simp)
              | some lm =>
                obtain ⟨l, m⟩ := lm
                simp only [hfl] at h
                cases hsub : signal__attachment__unpack ((((b :: rest).drop n).drop m).take l) with
                | none =>
                  simp only [hsub] at h
                  exact absurd h (by simp)
                | some sub =>
                  simp only [hsub] at h
                  have hbody : tokenBodyLen 2 ((b :: rest).drop n) = some (m + l) := by
                    simp [tokenBodyLen, hfl]
                  simp only [hbody] at htok
                  rw [← List.drop_drop] at htok
                  cases htoks2 : tokenize fuel ((((b :: rest).drop n).drop m).drop l) with
                  | none => rw [htoks2] at htok; exact absurd htok (by simp)
                  | some toks2 =>
                    rw [htoks2] at htok
                    simp only [Option.map_some', Option.some.injEq] at htok
                    subst htok
                    obtain ⟨ihc, ihn⟩ := ih _ _ _ _ h htoks2
                    refine count_step 8 4 2 (by omega) toks2 (bfFlag acc)
                      (bfFlag { acc with attachment := some sub }) ?_ ?_ ?_ ihc ihn
                    · simp [bfFlag, hflag]
                    · simp [bfFlag]
                    · intro g hg
                      unfold bfFlag
                      split_ifs <;> first | rfl | (exact absurd (by assumption) hg)
            · rw [if_pos hw] at h
              exact absurd h (by simp)
        by_cases hf5 : f = 5
        · subst hf5
          rw [if_neg (by decide), if_neg (by decide), if_neg (by decide), if_neg (by decide), if_pos rfl] at h
          cases hflag : acc.version with
          | some x => simp [hflag] at h
          | none =>
            simp only [hflag, Option.isSome_none, Bool.false_eq_true, if_false] at h
            by_cases hw : w = 2
            · subst hw
              rw [if_neg (fun hh => hh rfl)] at h
              cases hfl : fieldlen_unpack ((b :: rest).drop n) with
              | none =>
                simp only [hfl] at h
                exact absurd h (by simp)
              | some lm =>
                obtain ⟨l, m⟩ := lm
                simp only [hfl] at h
                cases hsub : signal__database_version__unpack ((((b :: rest).drop n).drop m).take l) with
                | none =>
                  simp only [hsub] at h
                  exact absurd h (by simp)
                | some sub =>
                  simp only [hsub] at h
                  have hbody : tokenBodyLen 2 ((b :: rest).drop n) = some (m + l) := by
                    simp [tokenBodyLen, hfl]
                  simp only [hbody] at htok
                  rw [← List.drop_drop] at htok
                  cases htoks2 : tokenize fuel ((((b :: rest).drop n).drop m).drop l) with
                  | none => rw [htoks2] at htok; exact absurd htok (by simp)
                  | some toks2 =>
                    rw [htoks2] at htok
                    simp only [Option.map_some', Option.some.injEq] at htok
                    subst htok
                    obtain ⟨ihc, ihn⟩ := ih _ _ _ _ h htoks2
                    refine count_step 8 5 2 (by omega) toks2 (bfFlag acc)
                      (bfFlag { acc with version := some sub }) ?_ ?_ ?_ ihc ihn
                    · simp [bfFlag, hflag]
                    · simp [bfFlag]
                    · intro g hg
                      unfold bfFlag
                      split_ifs <;> first | rfl | (exact absurd (by assumption) hg)
            · rw [if_pos hw] at h
              exact absurd h (by simp)
        by_cases hf6 : f = 6
        · subst hf6
          rw [if_neg (by decide), if_neg (by decide), if_neg (by decide), if_neg (by decide), if_neg (by decide), if_pos rfl] at h
          cases hflag : acc.endb with
          | some x => simp [hflag] at h
          | none =>
            simp only [hflag, Option.isSome_none, Bool.false_eq_true, if_false] at h
            by_cases hw : w = 0
            · subst hw
              rw [if_neg (fun hh => hh rfl)] at h
              cases hbp : bool_unpack ((b :: rest).drop n) with
              | none =>
                simp only [hbp] at h
                exact absurd h (by simp)
              | some vm =>
                obtain ⟨v, m⟩ := vm
                simp only [hbp] at h
                obtain ⟨v2, hv2⟩ := bool_unpack_varint _ _ _ hbp
                have hbody : tokenBodyLen 0 ((b :: rest).drop n) = some m := by
                  simp [tokenBodyLen, hv2]
                simp only [hbody] at htok
                cases htoks2 : tokenize fuel (((b :: rest).drop n).drop m) with
                | none => rw [htoks2] at htok; exact absurd htok (by simp)
                | some toks2 =>
                  rw [htoks2] at htok
                  simp only [Option.map_some', Option.some.injEq] at htok
                  subst htok
                  obtain ⟨ihc, ihn⟩ := ih _ _ _ _ h htoks2
                  refine count_step 8 6 0 (by omega) toks2 (bfFlag acc)
                    (bfFlag { acc with endb := some v }) ?_ ?_ ?_ ihc ihn
                  · simp [bfFlag, hflag]
                  · simp [bfFlag]
                  · intro g hg
                    unfold bfFlag
                    split_ifs <;> first | rfl | (exact absurd (by assumption) hg)
            · rw [if_pos hw] at h
              exact absurd h (by simp)
        by_cases hf7 : f = 7
        · subst hf7
          rw [if_neg (by decide), if_neg (by decide), if_neg (by decide), if_neg (by decide), if_neg (by decide), if_neg (by decide), if_pos rfl] at h
          cases hflag : acc.avatar with
          | some x => simp [hflag] at h
          | none =>
            simp only [hflag, Option.isSome_none, Bool.false_eq_true, if_false] at h
            by_cases hw : w = 2
            · subst hw
              rw [if_neg (fun hh => hh rfl)] at h
              cases hfl : fieldlen_unpack ((b :: rest).drop n) with
              | none =>
                simp only [hfl] at h
                exact absurd h (by simp)
              | some lm =>
                obtain ⟨l, m⟩ := lm
                simp only [hfl] at h
                cases hsub : signal__avatar__unpack ((((b :: rest).drop n).drop m).take l) with
                | none =>
                  simp only [hsub] at h
                  exact absurd h (by simp)
                | some sub =>
                  simp only [hsub] at h
                  have hbody : tokenBodyLen 2 ((b :: rest).drop n) = some (m + l) := by
                    simp [tokenBodyLen, hfl]
                  simp only [hbody] at htok
                  rw [← List.drop_drop] at htok
                  cases htoks2 : tokenize fuel ((((b :: rest).drop n).drop m).drop l) with
                  | none => rw [htoks2] at htok; exact absurd htok (by simp)
                  | some toks2 =>
                    rw [htoks2] at htok
                    simp only [Option.map_some', Option.some.injEq] at htok
                    subst htok
                    obtain ⟨ihc, ihn⟩ := ih _ _ _ _ h htoks2
                    refine count_step 8 7 2 (by omega) toks2 (bfFlag acc)
                      (bfFlag { acc with avatar := some sub }) ?_ ?_ ?_ ihc ihn
                    · simp [bfFlag, hflag]
                    · simp [bfFlag]
                    · intro g hg
                      unfold bfFlag
                      split_ifs <;> first | rfl | (exact absurd (by assumption) hg)
            · rw [if_pos hw] at h
              exact absurd h (by simp)
        by_cases hf8 : f = 8
        · subst hf8
          rw [if_neg (by decide), if_neg (by decide), if_neg (by decide), if_neg (by decide), if_neg (by decide), if_neg (by decide), if_neg (by decide), if_pos rfl] at h
          cases hflag : acc.sticker with
          | some x => simp [hflag] at h
          | none =>
            simp only [hflag, Option.isSome_none, Bool.false_eq_true, if_false] at h
            by_cases hw : w = 2
            · subst hw
              rw [if_neg (fun hh => hh rfl)] at h
              cases hfl : fieldlen_unpack ((b :: rest).drop n) with
              | none =>
                simp only [hfl] at h
                exact absurd h (by simp)
              | some lm =>
                obtain ⟨l, m⟩ := lm
                simp only [hfl] at h
                cases hsub : signal__sticker__unpack ((((b :: rest).drop n).drop m).take l) with
                | none =>
                  simp only [hsub] at h
                  exact absurd h (by simp)
                | some sub =>
                  simp only [hsub] at h
                  have hbody : tokenBodyLen 2 ((b :: rest).drop n) = some (m + l) := by
                    simp [tokenBodyLen, hfl]
                  simp only [hbody] at htok
                  rw [← List.drop_drop] at htok
                  cases htoks2 : tokenize fuel ((((b :: rest).drop n).drop m).drop l) with
                  | none => rw [htoks2] at htok; exact absurd htok (by simp)
                  | some toks2 =>
                    rw [htoks2] at htok
                    simp only [Option.map_some', Option.some.injEq] at htok
                    subst htok
                    obtain ⟨ihc, ihn⟩ := ih _ _ _ _ h htoks2
                    refine count_step 8 8 2 (by omega) toks2 (bfFlag acc)
                      (bfFlag { acc with sticker := some sub }) ?_ ?_ ?_ ihc ihn
                    · simp [bfFlag, hflag]
                    · simp [bfFlag]
                    · intro g hg
                      unfold bfFlag
                      split_ifs <;> first | rfl | (exact absurd (by assumption) hg)
            · rw [if_pos hw] at h
              exact absurd h (by simp)
        rw [if_neg hf1, if_neg hf2, if_neg hf3, if_neg hf4, if_neg hf5, if_neg hf6,
          if_neg hf7, if_neg hf8] at h
        exact absurd h (by simp)

/-- One unfolding step of `sqlParameterLoop` on a non-empty buffer. -/
theorem sqlParameterLoop_cons (fuel : Nat) (b : Nat) (rest : List Nat) (par : SqlParameter) :
    sqlParameterLoop (fuel + 1) (b :: rest) par =
      match tag_unpack (b :: rest) with
      | none => none
      | some (fieldnum, wiretype, n) =>
        let buf1 := (b :: rest).drop n
        if fieldnum = 1 then
          if par.stringparamter.isSome then none
          else if wiretype ≠ 2 then none
          else match fieldlen_unpack buf1 with
            | none => none
            | some (fieldlen, m) =>
              let buf2 := buf1.drop m
              sqlParameterLoop fuel (buf2.drop fieldlen)
                { par with stringparamter := some (string_unpack fieldlen buf2) }
        else if fieldnum = 2 then
          if par.integerparameter.isSome then none
          else if wiretype ≠ 0 then none
          else match uint64_unpack buf1 with
            | none => none
            | some (v, m) =>
              sqlParameterLoop fuel (buf1.drop m) { par with integerparameter := some v }
        else if fieldnum = 3 then
          if par.doubleparameter.isSome then none
          else if wiretype ≠ 1 then none
          else match double_unpack buf1 with
            | none => none
            | some (v, m) =>
              sqlParameterLoop fuel (buf1.drop m) { par with doubleparameter := some v }
        else if fieldnum = 4 then
          if par.blobparameter.isSome then none
          else if wiretype ≠ 2 then none
          else match fieldlen_unpack buf1 with
            | none => none
            | some (fieldlen, m) =>
              let buf2 := buf1.drop m
              match binarydata_unpack fieldlen buf2 with
              | none => none
              | some bin =>
                sqlParameterLoop fuel (buf2.drop fieldlen) { par with blobparameter := some bin }
        else if fieldnum = 5 then
          if par.nullparameter.isSome then none
          else if wiretype ≠ 0 then none
          else match bool_unpack buf1 with
            | none => none
            | some (v, m) =>
              sqlParameterLoop fuel (buf1.drop m) { par with nullparameter := some v }
        else none := rfl

set_option maxHeartbeats 2000000 in
/-- The duplicate/unknown-field invariant for `sqlParameterLoop`: an accepted
parameter buffer uses only field numbers 1–5, each at most once. -/
theorem sqlParameterLoop_tokens :
    ∀ (fuel : Nat) (buf : List Nat) (acc frm : SqlParameter) (toks : List (Nat × Nat)),
    sqlParameterLoop fuel buf acc = some frm →
    tokenize fuel buf = some toks →
    (∀ t ∈ toks, 1 ≤ t.1 ∧ t.1 ≤ 5) ∧
    (∀ g, countTok g toks + (if spFlag acc g then 1 else 0) ≤ 1) := by
  intro fuel
  induction fuel with
  | zero =>
    intro buf par frm toks h htok
    cases buf with
    | nil =>
      simp only [tokenize, Option.some.injEq] at htok
      subst htok
      refine ⟨by simp, ?_⟩
      intro g
      unfold countTok
      simp only [List.filter_nil, List.length_nil, Nat.zero_add]
      split <;> omega
    | cons b rest =>
      rw [show sqlParameterLoop 0 (b :: rest) par = none from rfl] at h
      exact absurd h (by simp)
  | succ fuel ih =>
    intro buf par frm toks h htok
    cases buf with
    | nil =>
      simp only [tokenize, Option.some.injEq] at htok
      subst htok
      refine ⟨by simp, ?_⟩
      intro g
      unfold countTok
      simp only [List.filter_nil, List.length_nil, Nat.zero_add]
      split <;> omega
    | cons b rest =>
      rw [sqlParameterLoop_cons] at h
      rw [tokenize_cons] at htok
      cases htag : tag_unpack (b :: rest) with
      | none =>
        simp only [htag] at h
        exact absurd h (by simp)
      | some fwn =>
        obtain ⟨f, w, n⟩ := fwn
        simp only [htag] at h htok
        by_cases hf1 : f = 1
        · subst hf1
          rw [if_pos rfl] at h
          cases hflag : par.stringparamter with
          | some x => simp [hflag] at h
          | none =>
            simp only [hflag, Option.isSome_none, Bool.false_eq_true, if_false] at h
            by_cases hw : w = 2
            · subst hw
              rw [if_neg (fun hh => hh rfl)] at h
              cases hfl : fieldlen_unpack ((b :: rest).drop n) with
              | none =>
                simp only [hfl] at h
                exact absurd h (by simp)
              | some lm =>
                obtain ⟨l, m⟩ := lm
                simp only [hfl] at h
                have hbody : tokenBodyLen 2 ((b :: rest).drop n) = some (m + l) := by
                  simp [tokenBodyLen, hfl]
                simp only [hbody] at htok
                rw [← List.drop_drop] at htok
                cases htoks2 : tokenize fuel ((((b :: rest).drop n).drop m).drop l) with
                | none => rw [htoks2] at htok; exact absurd htok (by simp)
                | some toks2 =>
                  rw [htoks2] at htok
                  simp only [Option.map_some', Option.some.injEq] at htok
                  subst htok
                  obtain ⟨ihc, ihn⟩ := ih _ _ _ _ h htoks2
                  refine count_step 5 1 2 (by omega) toks2 (spFlag par)
                    (spFlag { par with stringparamter := some (string_unpack l (((b :: rest).drop n).drop m)) })
                    ?_ ?_ ?_ ihc ihn
                  · simp [spFlag, hflag]
                  · simp [spFlag]
                  · intro g hg
                    unfold spFlag
                    split_ifs <;> first | rfl | (exact absurd (by assumption) hg)
            · rw [if_pos hw] at h
              exact absurd h (by simp)
        by_cases hf2 : f = 2
        · subst hf2
          rw [if_neg (by decide), if_pos rfl] at h
          cases hflag : par.integerparameter with
          | some x => simp [hflag] at h
          | none =>
            simp only [hflag, Option.isSome_none, Bool.false_eq_true, if_false] at h
            by_cases hw : w = 0
            · subst hw
              rw [if_neg (fun hh => hh rfl)] at h
              cases hvp : uint64_unpack ((b :: rest).drop n) with
              | none =>
                simp only [hvp] at h
                exact absurd h (by simp)
              | some vm =>
                obtain ⟨v, m⟩ := vm
                simp only [hvp] at h
                have hv2 : varint_unpack ((b :: rest).drop n) = some (v, m) := hvp
                have hbody : tokenBodyLen 0 ((b :: rest).drop n) = some m := by
                  simp [tokenBodyLen, hv2]
                simp only [hbody] at htok
                cases htoks2 : tokenize fuel (((b :: rest).drop n).drop m) with
                | none => rw [htoks2] at htok; exact absurd htok (by simp)
                | some toks2 =>
                  rw [htoks2] at htok
                  simp only [Option.map_some', Option.some.injEq] at htok
                  subst htok
                  obtain ⟨ihc, ihn⟩ := ih _ _ _ _ h htoks2
                  refine count_step 5 2 0 (by omega) toks2 (spFlag par)
                    (spFlag { par with integerparameter := some v }) ?_ ?_ ?_ ihc ihn
                  · simp [spFlag, hflag]
                  · simp [spFlag]
                  · intro g hg
                    unfold spFlag
                    split_ifs <;> first | rfl | (exact absurd (by assumption) hg)
            · rw [if_pos hw] at h
              exact absurd h (by simp)
        by_cases hf3 : f = 3
        · subst hf3
          rw [if_neg (by decide), if_neg (by decide), if_pos rfl] at h
          cases hflag : par.doubleparameter with
          | some x => simp [hflag] at h
          | none =>
            simp only [hflag, Option.isSome_none, Bool.false_eq_true, if_false] at h
            by_cases hw : w = 1
            · subst hw
              rw [if_neg (fun hh => hh rfl)] at h
              cases hvp : double_unpack ((b :: rest).drop n) with
              | none =>
                simp only [hvp] at h
                exact absurd h (by simp)
              | some vm =>
                obtain ⟨v, m⟩ := vm
                simp only [hvp] at h
                obtain ⟨hm8, hlen8⟩ := double_unpack_eight _ _ _ hvp
                subst hm8
                have hbody : tokenBodyLen 1 ((b :: rest).drop n) = some 8 := by
                  simp only [tokenBodyLen, if_neg (by decide : ¬(1 : Nat) = 0), if_pos rfl]
                  rw [if_pos hlen8]
                  simp
                simp only [hbody] at htok
                cases htoks2 : tokenize fuel (((b :: rest).drop n).drop 8) with
                | none => rw [htoks2] at htok; exact absurd htok (by simp)
                | some toks2 =>
                  rw [htoks2] at htok
                  simp only [Option.map_some', Option.some.injEq] at htok
                  subst htok
                  obtain ⟨ihc, ihn⟩ := ih _ _ _ _ h htoks2
                  refine count_step 5 3 1 (by omega) toks2 (spFlag par)
                    (spFlag { par with doubleparameter := some v }) ?_ ?_ ?_ ihc ihn
                  · simp [spFlag, hflag]
                  · simp [spFlag]
                  · intro g hg
                    unfold spFlag
                    split_ifs <;> first | rfl | (exact absurd (by assumption) hg)
            · rw [if_pos hw] at h
              exact absurd h (by simp)
        by_cases hf4 : f = 4
        · subst hf4
          rw [if_neg (by decide), if_neg (by decide), if_neg (by decide), if_pos rfl] at h
          cases hflag : par.blobparameter with
          | some x => simp [hflag] at h
          | none =>
            simp only [hflag, Option.isSome_none, Bool.false_eq_true, if_false] at h
            by_cases hw : w = 2
            · subst hw
              rw [if_neg (fun hh => hh rfl)] at h
              cases hfl : fieldlen_unpack ((b :: rest).drop n) with
              | none =>
                simp only [hfl] at h
                exact absurd h (by simp)
              | some lm =>
                obtain ⟨l, m⟩ := lm
                simp only [hfl] at h
                cases hbin : binarydata_unpack l (((b :: rest).drop n).drop m) with
                | none =>
                  simp only [hbin] at h
                  exact absurd h (by simp)
                | some bin =>
                  simp only [hbin] at h
                  have hbody : tokenBodyLen 2 ((b :: rest).drop n) = some (m + l) := by
                    simp [tokenBodyLen, hfl]
                  simp only [hbody] at htok
                  rw [← List.drop_drop] at htok
                  cases htoks2 : tokenize fuel ((((b :: rest).drop n).drop m).drop l) with
                  | none => rw [htoks2] at htok; exact absurd htok (by simp)
                  | some toks2 =>
                    rw [htoks2] at htok
                    simp only [Option.map_some', Option.some.injEq] at htok
                    subst htok
                    obtain ⟨ihc, ihn⟩ := ih _ _ _ _ h htoks2
                    refine count_step 5 4 2 (by omega) toks2 (spFlag par)
                      (spFlag { par with blobparameter := some bin }) ?_ ?_ ?_ ihc ihn
                    · simp [spFlag, hflag]
                    · simp [spFlag]
                    · intro g hg
                      unfold spFlag
                      split_ifs <;> first | rfl | (exact absurd (by assumption) hg)
            · rw [if_pos hw] at h
              exact absurd h (by simp)
        by_cases hf5 : f = 5
        · subst hf5
          rw [if_neg (by decide), if_neg (by decide), if_neg (by decide), if_neg (by decide), if_pos rfl] at h
          cases hflag : par.nullparameter with
          | some x => simp [hflag] at h
          | none =>
            simp only [hflag, Option.isSome_none, Bool.false_eq_true, if_false] at h
            by_cases hw : w = 0
            · subst hw
              rw [if_neg (fun hh => hh rfl)] at h
              cases hvp : bool_unpack ((b :: rest).drop n) with
              | none =>
                simp only [hvp] at h
                exact absurd h (by simp)
              | some vm =>
                obtain ⟨v, m⟩ := vm
                simp only [hvp] at h
                obtain ⟨v2, hv2⟩ := bool_unpack_varint _ _ _ hvp
                have hbody : tokenBodyLen 0 ((b :: rest).drop n) = some m := by
                  simp [tokenBodyLen, hv2]
                simp only [hbody] at htok
                cases htoks2 : tokenize fuel (((b :: rest).drop n).drop m) with
                | none => rw [htoks2] at htok; exact absurd htok (by simp)
                | some toks2 =>
                  rw [htoks2] at htok
                  simp only [Option.map_some', Option.some.injEq] at htok
                  subst htok
                  obtain ⟨ihc, ihn⟩ := ih _ _ _ _ h htoks2
                  refine count_step 5 5 0 (by omega) toks2 (spFlag par)
                    (spFlag { par with nullparameter := some v }) ?_ ?_ ?_ ihc ihn
                  · simp [spFlag, hflag]
                  · simp [spFlag]
                  · intro g hg
                    unfold spFlag
                    split_ifs <;> first | rfl | (exact absurd (by assumption) hg)
            · rw [if_pos hw] at h
              exact absurd h (by simp)
        rw [if_neg hf1, if_neg hf2, if_neg hf3, if_neg hf4, if_neg hf5] at h
        exact absurd h (by simp)

/-- C8: the protobuf decoder rejects (returns failure for the whole buffer)
any `Signal__BackupFrame` or `SqlParameter` submessage whose wire tokens
contain a second occurrence of a non-repeated field, and likewise any field
number not defined for the message type — unknown fields are errors, not
skipped. -/
theorem unpack_rejects_dup_unknown :
    (∀ (buf : List Nat) (toks : List (Nat × Nat)),
      tokenize buf.length buf = some toks →
      ((∃ t ∈ toks, ¬ (1 ≤ t.1 ∧ t.1 ≤ 8)) ∨ ∃ g, 2 ≤ countTok g toks) →
      signal__backup_frame__unpack buf = none) ∧
    (∀ (buf : List Nat) (toks : List (Nat × Nat)),
      tokenize buf.length buf = some toks →
      ((∃ t ∈ toks, ¬ (1 ≤ t.1 ∧ t.1 ≤ 5)) ∨ ∃ g, 2 ≤ countTok g toks) →
      signal__sql_statement__sql_parameter__unpack buf = none) := by
  constructor
  · intro buf toks htok hbad
    cases hcase : signal__backup_frame__unpack buf with
    | none => rfl
    | some frm =>
      exfalso
      obtain ⟨hc, hn⟩ := backupFrameLoop_tokens buf.length buf _ frm toks hcase htok
      rcases hbad with ⟨t, ht, hbadt⟩ | ⟨g, hg⟩
      · exact hbadt (hc t ht)
      · have hthis := hn g
        have hinit : bfFlag ⟨none, none, none, none, none, none, none, none⟩ g = false := by
          unfold bfFlag
          split_ifs <;> rfl
        rw [hinit] at hthis
        simp only [Bool.false_eq_true, if_false] at hthis
        omega
  · intro buf toks htok hbad
    cases hcase : signal__sql_statement__sql_parameter__unpack buf with
    | none => rfl
    | some par =>
      exfalso
      obtain ⟨hc, hn⟩ := sqlParameterLoop_tokens buf.length buf _ par toks hcase htok
      rcases hbad with ⟨t, ht, hbadt⟩ | ⟨g, hg⟩
      · exact hbadt (hc t ht)
      · have hthis := hn g
        have hinit : spFlag ⟨none, none, none, none, none⟩ g = false := by
          unfold spFlag
          split_ifs <;> rfl
        rw [hinit] at hthis
        simp only [Bool.false_eq_true, if_false] at hthis
        omega

/-- Witness for C8: a backup frame with the `end` field twice and a
parameter with the integer field twice are both rejected. -/
theorem unpack_rejects_dup_unknown_witness :
    signal__backup_frame__unpack [0x30, 0x01, 0x30, 0x01] = none ∧
    signal__sql_statement__sql_parameter__unpack [0x10, 0x01, 0x10, 0x01] = none := by
  constructor
  · exact unpack_rejects_dup_unknown.1 [0x30, 0x01, 0x30, 0x01] [(6, 0), (6, 0)]
      (by decide) (Or.inr ⟨6, by decide⟩)
  · exact unpack_rejects_dup_unknown.2 [0x10, 0x01, 0x10, 0x01] [(2, 0), (2, 0)]
      (by decide) (Or.inr ⟨2, by decide⟩)


/-! ## C1/C3: stepping the frame iterator over a well-formed stream -/

theorem read_record (pre body rest : List Nat) (L : Nat)
    (hL0 : 0 < L) (hL31 : L < 2 ^ 31) (hbody : body.length = L) :
    sbk_read_frame (pre ++ be32 L ++ body ++ rest) pre.length =
      .ok (body, pre.length + 4 + L) := by
  have harr : pre ++ be32 L ++ body ++ rest =
      pre ++ L >>> 24 % 256 :: L >>> 16 % 256 :: L >>> 8 % 256 :: L % 256 ::
        (body ++ rest) := by
    simp [be32]
  rw [harr, read_frame_length_check pre (body ++ rest) _ _ _ _
    (Nat.mod_lt _ (by omega)) (Nat.mod_lt _ (by omega)) (Nat.mod_lt _ (by omega))
    (Nat.mod_lt _ (by omega))]
  have hval : L >>> 24 % 256 * 2 ^ 24 + L >>> 16 % 256 * 2 ^ 16 +
      L >>> 8 % 256 * 2 ^ 8 + L % 256 = L := by
    rw [Nat.shiftRight_eq_div_pow, Nat.shiftRight_eq_div_pow, Nat.shiftRight_eq_div_pow]
    omega
  rw [hval]
  rw [if_neg (by omega), if_pos (by simp only [List.length_append]; omega)]
  rw [show (body ++ rest).take L = body from by rw [← hbody]; exact List.take_left body rest]

theorem frameSpecBytes_length (c : Crypto) (f : FrameSpec)
    (h : 10 ≤ (c.hmac f.ct).length) :
    (frameSpecBytes c f).length = 4 + (f.ct.length + 10) + f.payload.length := by
  simp only [frameSpecBytes, be32, List.length_append, List.length_cons, List.length_nil,
    List.length_take]
  omega

theorem framesBytes_cons (c : Crypto) (f : FrameSpec) (fs : List FrameSpec) :
    framesBytes c (f :: fs) = frameSpecBytes c f ++ framesBytes c fs := by
  simp [framesBytes]

theorem framesBytes_len_ge (c : Crypto) : ∀ fs : List FrameSpec,
    fs.length ≤ (framesBytes c fs).length := by
  intro fs
  induction fs with
  | nil => simp [framesBytes]
  | cons f fs ih =>
    rw [framesBytes_cons]
    simp only [List.length_cons, List.length_append]
    have h4 : 4 ≤ (frameSpecBytes c f).length := by
      simp only [frameSpecBytes, be32, List.length_append, List.length_cons, List.length_nil]
      omega
    omega

/-- Reading the unencrypted first frame of a backup stream. -/
theorem getFrame_first (c : Crypto) (p post : List Nat) (frm : BackupFrame)
    (ctx : SbkCtx) (wantFile : Bool)
    (hpos : ctx.pos = 0) (hff : ctx.firstframe = true) (heof : ctx.eof = false)
    (hp0 : p ≠ []) (hp31 : p.length < 2 ^ 31)
    (hunp : signal__backup_frame__unpack p = some frm) :
    sbk_get_frame c (mkPlainRecord p ++ post) ctx wantFile =
      .ok (some (⟨frm, none⟩, ⟨4 + p.length, ctx.counter, ctx.iv, false, false⟩)) := by
  obtain ⟨cpos, cctr, civ, cff, ceof⟩ := ctx
  simp only at hpos hff heof
  subst hpos hff heof
  have hread := read_record [] p post p.length (List.length_pos.mpr hp0) hp31 rfl
  simp only [List.nil_append, List.length_nil, Nat.zero_add] at hread
  have harr : mkPlainRecord p ++ post = be32 p.length ++ p ++ post := by
    simp [mkPlainRecord, List.append_assoc]
  unfold sbk_get_frame
  simp only [harr, hread, hunp, Bool.false_eq_true, if_false, if_true]

/-- One `sbk_get_frame` step over a well-formed encrypted record placed at
the context's position. -/
theorem getFrame_step (c : Crypto) (pre post : List Nat) (f : FrameSpec)
    (frm : BackupFrame) (ctx : SbkCtx) (wantFile : Bool)
    (hpos : ctx.pos = pre.length) (hff : ctx.firstframe = false)
    (heof : ctx.eof = false) (hok : FrameOk c ctx.counter f frm) :
    sbk_get_frame c (pre ++ frameSpecBytes c f ++ post) ctx wantFile =
      .ok (some (⟨frm,
        if wantFile && sbk_has_file_data frm then
          some ⟨pre.length + 4 + (f.ct.length + 10), f.payload.length - 10,
                (ctx.counter + 1) % 2 ^ 32⟩
        else none⟩,
        ⟨pre.length + 4 + (f.ct.length + 10) + f.payload.length,
         nextCtr ctx.counter f, ctx.iv, false, frm.endb.isSome⟩)) := by
  obtain ⟨hunp, hct0, h31, hmac10, hpay⟩ := hok
  obtain ⟨cpos, cctr, civ, cff, ceof⟩ := ctx
  simp only at hpos hff heof hunp hpay ⊢
  subst hpos hff heof
  have hctpos : 0 < f.ct.length := List.length_pos.mpr hct0
  have htag : ((c.hmac f.ct).take 10).length = 10 := by
    simp only [List.length_take]
    omega
  have hread : sbk_read_frame (pre ++ frameSpecBytes c f ++ post) pre.length =
      .ok (f.ct ++ (c.hmac f.ct).take 10, pre.length + 4 + (f.ct.length + 10)) := by
    have harr : pre ++ frameSpecBytes c f ++ post =
        pre ++ be32 (f.ct.length + 10) ++ (f.ct ++ (c.hmac f.ct).take 10) ++
          (f.payload ++ post) := by
      simp [frameSpecBytes, List.append_assoc]
    rw [harr, read_record _ _ _ _ (by omega) h31
      (by simp only [List.length_append, htag])]
  have hibuflen : (f.ct ++ (c.hmac f.ct).take 10).length = f.ct.length + 10 := by
    simp only [List.length_append, htag]
  unfold sbk_get_frame
  simp only [hread, Bool.false_eq_true, if_false, hibuflen]
  rw [if_neg (by omega : ¬ f.ct.length + 10 ≤ 10)]
  have hsub : f.ct.length + 10 - 10 = f.ct.length := by omega
  rw [hsub, List.take_left, List.drop_left]
  rw [if_neg (by simp : ¬ (c.hmac f.ct).take 10 ≠ (c.hmac f.ct).take 10)]
  simp only [hunp]
  by_cases hfd : sbk_has_file_data frm = true
  · rw [if_pos hfd] at hpay
    obtain ⟨l, hgl, hsl, hpl⟩ := hpay
    rw [if_pos hfd]
    have hne : ¬ f.payload.isEmpty = true := by
      rw [List.isEmpty_iff]
      intro hcontra
      rw [hcontra] at hpl
      simp at hpl
    have hnext : nextCtr cctr f = ((cctr + 1) % 2 ^ 32 + 1) % 2 ^ 32 := by
      unfold nextCtr
      rw [if_neg hne]
    cases wantFile with
    | false =>
      simp only [Bool.false_and, Bool.false_eq_true, if_false, hsl]
      rw [hnext, show pre.length + 4 + (f.ct.length + 10) + l + 10 =
        pre.length + 4 + (f.ct.length + 10) + f.payload.length by omega]
    | true =>
      simp only [Bool.true_and, if_pos hfd, hgl, hsl, if_true]
      rw [hnext, show pre.length + 4 + (f.ct.length + 10) + l + 10 =
        pre.length + 4 + (f.ct.length + 10) + f.payload.length by omega,
        show f.payload.length - 10 = l by omega]
  · rw [if_neg hfd] at hpay
    rw [if_neg hfd]
    have hnext : nextCtr cctr f = (cctr + 1) % 2 ^ 32 := by
      unfold nextCtr
      rw [if_pos (by rw [hpay]; rfl)]
    have hfd' : sbk_has_file_data frm = false := by
      rw [Bool.not_eq_true] at hfd
      exact hfd
    simp only [hfd', Bool.and_false, Bool.false_eq_true, if_false, hnext, hpay,
      List.length_nil, Nat.add_zero]

/-- A record whose ciphertext bytes were altered (with the original tag kept)
is rejected by the frame iterator with "HMAC mismatch", provided the tag of
the altered ciphertext differs from the stored one. -/
theorem getFrame_corrupt (c : Crypto) (pre post : List Nat) (f : FrameSpec)
    (ct' : List Nat) (ctx : SbkCtx) (wantFile : Bool)
    (hpos : ctx.pos = pre.length) (hff : ctx.firstframe = false)
    (heof : ctx.eof = false) (hlen : ct'.length = f.ct.length)
    (hct0 : f.ct ≠ []) (h31 : f.ct.length + 10 < 2 ^ 31)
    (hmac10 : 10 ≤ (c.hmac f.ct).length)
    (hdiff : (c.hmac ct').take 10 ≠ (c.hmac f.ct).take 10) :
    sbk_get_frame c (pre ++ corruptFrameBytes c f ct' ++ post) ctx wantFile =
      .error "HMAC mismatch" := by
  have hctpos : 0 < f.ct.length := List.length_pos.mpr hct0
  have htag : ((c.hmac f.ct).take 10).length = 10 := by
    simp only [List.length_take]
    omega
  have hread : sbk_read_frame (pre ++ corruptFrameBytes c f ct' ++ post) ctx.pos =
      .ok (ct' ++ (c.hmac f.ct).take 10, pre.length + 4 + (f.ct.length + 10)) := by
    have harr : pre ++ corruptFrameBytes c f ct' ++ post =
        pre ++ be32 (f.ct.length + 10) ++ (ct' ++ (c.hmac f.ct).take 10) ++
          (f.payload ++ post) := by
      simp [corruptFrameBytes, List.append_assoc]
    rw [hpos, harr, read_record _ _ _ _ (by omega) h31
      (by simp only [List.length_append, htag]; omega)]
  have hibuflen : (ct' ++ (c.hmac f.ct).take 10).length = f.ct.length + 10 := by
    simp only [List.length_append, htag]
    omega
  refine (getFrame_mac_check c _ ctx _ _ wantFile heof hff hread
    (by omega : 10 < (ct' ++ (c.hmac f.ct).take 10).length)).mpr ?_
  rw [hibuflen, show f.ct.length + 10 - 10 = f.ct.length by omega, ← hlen,
    List.take_left, List.drop_left]
  exact hdiff

/-- `payloadCount` over a cons. -/
theorem payloadCount_cons (f : FrameSpec) (fs : List FrameSpec) :
    payloadCount (f :: fs) =
      (if f.payload.isEmpty then 0 else 1) + payloadCount fs := by
  unfold payloadCount
  rw [List.filter_cons]
  by_cases h : f.payload.isEmpty
  · rw [if_pos h]
    simp [h]
  · rw [if_neg h]
    simp [h, Nat.add_comm]

/-- Without 32-bit wraparound, the counter after a run of frames is the
initial counter plus the number of frames plus the number of file payloads. -/
theorem chainCtr_sum : ∀ (fs : List FrameSpec) (ctr : Nat),
    ctr + fs.length + payloadCount fs < 2 ^ 32 →
    chainCtr ctr fs = ctr + fs.length + payloadCount fs := by
  intro fs
  induction fs with
  | nil =>
    intro ctr h
    simp [chainCtr, payloadCount]
  | cons f fs ih =>
    intro ctr h
    rw [payloadCount_cons, List.length_cons] at h
    have hstep : chainCtr ctr (f :: fs) = chainCtr (nextCtr ctr f) fs := rfl
    by_cases hemp : f.payload.isEmpty
    · rw [if_pos hemp] at h
      have hn : nextCtr ctr f = ctr + 1 := by
        unfold nextCtr
        rw [if_pos hemp]
        exact Nat.mod_eq_of_lt (by omega)
      rw [hstep, hn, ih (ctr + 1) (by omega), payloadCount_cons, if_pos hemp,
        List.length_cons]
      omega
    · rw [if_neg hemp] at h
      have hn : nextCtr ctr f = ctr + 2 := by
        unfold nextCtr
        rw [if_neg hemp, Nat.mod_eq_of_lt (by omega : ctr + 1 < 2 ^ 32)]
        exact Nat.mod_eq_of_lt (by omega)
      rw [hstep, hn, ih (ctr + 2) (by omega), payloadCount_cons, if_neg hemp,
        List.length_cons]
      omega

/-- Iterating the frame reader over a run of accepted frames succeeds and
lands after the run with the accumulated counter. -/
theorem iterate_chain (c : Crypto) (rest : List Nat) :
    ∀ (fs : List FrameSpec) (pre : List Nat) (ctx : SbkCtx),
    ctx.pos = pre.length → ctx.firstframe = false → ctx.eof = false →
    Chain c ctx.counter fs →
    sbk_iterate c (pre ++ (framesBytes c fs ++ rest)) fs.length ctx =
      .ok ⟨pre.length + (framesBytes c fs).length, chainCtr ctx.counter fs,
           ctx.iv, false, false⟩ := by
  intro fs
  induction fs with
  | nil =>
    intro pre ctx hpos hff heof _
    obtain ⟨cpos, cctr, civ, cff, ceof⟩ := ctx
    simp only at hpos hff heof
    subst hpos hff heof
    simp [sbk_iterate, framesBytes, chainCtr]
  | cons f fs ih =>
    intro pre ctx hpos hff heof hch
    cases hch with
    | cons _ _ frm _ hok hend hdisp hch' =>
      have hmac10 : 10 ≤ (c.hmac f.ct).length := hok.2.2.2.1
      have hfe : pre ++ (framesBytes c (f :: fs) ++ rest) =
          pre ++ frameSpecBytes c f ++ (framesBytes c fs ++ rest) := by
        rw [framesBytes_cons]
        simp [List.append_assoc]
      rw [show (f :: fs).length = fs.length + 1 from rfl]
      rw [hfe]
      simp only [sbk_iterate]
      simp only [getFrame_step c pre (framesBytes c fs ++ rest) f frm ctx true
        hpos hff heof hok]
      have hih := ih (pre ++ frameSpecBytes c f)
        ⟨pre.length + 4 + (f.ct.length + 10) + f.payload.length,
         nextCtr ctx.counter f, ctx.iv, false, frm.endb.isSome⟩
        (by
          simp only [List.length_append, frameSpecBytes_length c f hmac10]
          omega)
        rfl
        (by simp only [hend, Option.isSome_none])
        hch'
      dsimp only at hih
      have hc : chainCtr ctx.counter (f :: fs) = chainCtr (nextCtr ctx.counter f) fs := rfl
      rw [hih, framesBytes_cons, hc]
      simp only [List.length_append, Nat.add_assoc]

/-- The replay loop of `sbk_create_database` traverses a run of accepted,
non-final frames, continuing at the position after the run with the
accumulated counter (the database state and attachment tree built so far are
existentially quantified). -/
theorem createLoop_chain (c : Crypto) (rest : List Nat) :
    ∀ (fs : List FrameSpec) (pre : List Nat) (ctx : SbkCtx) (db : DbState)
      (tree : List AttachmentEntry) (fuel : Nat),
    ctx.pos = pre.length → ctx.firstframe = false → ctx.eof = false →
    Chain c ctx.counter fs →
    ∃ db' tree',
      createLoop c (pre ++ (framesBytes c fs ++ rest)) (fuel + fs.length) ctx db tree =
        createLoop c (pre ++ (framesBytes c fs ++ rest)) fuel
          ⟨pre.length + (framesBytes c fs).length, chainCtr ctx.counter fs, ctx.iv,
           false, false⟩ db' tree' := by
  intro fs
  induction fs with
  | nil =>
    intro pre ctx db tree fuel hpos hff heof _
    obtain ⟨cpos, cctr, civ, cff, ceof⟩ := ctx
    simp only at hpos hff heof
    subst hpos hff heof
    exact ⟨db, tree, by simp [framesBytes, chainCtr]⟩
  | cons f fs ih =>
    intro pre ctx db tree fuel hpos hff heof hch
    cases hch with
    | cons _ _ frm _ hok hend hdisp hch' =>
      have hmac10 : 10 ≤ (c.hmac f.ct).length := hok.2.2.2.1
      have hfe : pre ++ (framesBytes c (f :: fs) ++ rest) =
          pre ++ frameSpecBytes c f ++ (framesBytes c fs ++ rest) := by
        rw [framesBytes_cons]
        simp [List.append_assoc]
      rw [show (f :: fs).length = fs.length + 1 from rfl, ← Nat.add_assoc, hfe]
      simp only [createLoop]
      simp only [getFrame_step c pre (framesBytes c fs ++ rest) f frm ctx true
        hpos hff heof hok]
      have hstep : ∀ (db2 : DbState) (tree2 : List AttachmentEntry),
          ∃ db' tree',
          createLoop c (pre ++ frameSpecBytes c f ++ (framesBytes c fs ++ rest))
            (fuel + fs.length)
            ⟨pre.length + 4 + (f.ct.length + 10) + f.payload.length,
             nextCtr ctx.counter f, ctx.iv, false, frm.endb.isSome⟩ db2 tree2 =
          createLoop c (pre ++ frameSpecBytes c f ++ (framesBytes c fs ++ rest)) fuel
            ⟨pre.length + (framesBytes c (f :: fs)).length,
             chainCtr ctx.counter (f :: fs), ctx.iv, false, false⟩ db' tree' := by
        intro db2 tree2
        obtain ⟨db', tree', hrec⟩ := ih (pre ++ frameSpecBytes c f)
          ⟨pre.length + 4 + (f.ct.length + 10) + f.payload.length,
           nextCtr ctx.counter f, ctx.iv, false, frm.endb.isSome⟩ db2 tree2 fuel
          (by simp only [List.length_append, frameSpecBytes_length c f hmac10]; omega)
          rfl (by simp only [hend, Option.isSome_none]) hch'
        dsimp only at hrec
        refine ⟨db', tree', ?_⟩
        rw [hrec, framesBytes_cons,
          show chainCtr ctx.counter (f :: fs) = chainCtr (nextCtr ctx.counter f) fs
            from rfl]
        simp only [List.length_append, Nat.add_assoc]
      cases hv : frm.version with
      | some ver =>
        simp only [dispatchOk, hv] at hdisp
        obtain ⟨v, hvv⟩ := Option.isSome_iff_exists.mp hdisp
        have hset : sbk_set_database_version db ver =
            .ok ⟨v, db.ops ++ [DbOp.setVersion v]⟩ := by
          unfold sbk_set_database_version
          rw [hvv]
        obtain ⟨db', tree', hfin⟩ := hstep ⟨v, db.ops ++ [DbOp.setVersion v]⟩ tree
        refine ⟨db', tree', ?_⟩
        simp only [hv, hset]
        exact hfin
      | none =>
        cases hs : frm.statement with
        | some sql =>
          simp only [dispatchOk, hv, hs] at hdisp
          obtain ⟨stmt, hstmt, hdisj⟩ := hdisp
          have hexec : ∃ db2, sbk_exec_statement db sql = .ok db2 := by
            unfold sbk_exec_statement
            simp only [hstmt]
            by_cases hskip : strncasecmpEq 20 stmt createTableSqliteBytes = true
            · rw [if_pos hskip]
              exact ⟨db, rfl⟩
            · rw [if_neg hskip]
              rcases hdisj with hskip2 | ⟨vals, hvals⟩
              · exact absurd hskip2 hskip
              · rw [hvals]
                exact ⟨_, rfl⟩
          obtain ⟨db2, hexec⟩ := hexec
          obtain ⟨db', tree', hfin⟩ := hstep db2 tree
          refine ⟨db', tree', ?_⟩
          simp only [hv, hs, hexec]
          exact hfin
        | none =>
          cases ha : frm.attachment with
          | some att =>
            simp only [dispatchOk, hv, hs, ha] at hdisp
            obtain ⟨r, hrow⟩ := Option.isSome_iff_exists.mp hdisp.1
            obtain ⟨a, haid⟩ := Option.isSome_iff_exists.mp hdisp.2
            have hins : ∀ fo : Option SbkFile, ∃ tree2,
                sbk_insert_attachment_entry tree att fo = .ok tree2 := by
              intro fo
              unfold sbk_insert_attachment_entry
              simp only [hrow, haid]
              split
              · exact ⟨tree, rfl⟩
              · exact ⟨_, rfl⟩
            obtain ⟨tree2, hins2⟩ := hins (if true && sbk_has_file_data frm then
              some ⟨pre.length + 4 + (f.ct.length + 10), f.payload.length - 10,
                    (ctx.counter + 1) % 2 ^ 32⟩ else none)
            obtain ⟨db', tree', hfin⟩ := hstep db tree2
            refine ⟨db', tree', ?_⟩
            simp only [hv, hs, ha, hins2]
            exact hfin
          | none =>
            obtain ⟨db', tree', hfin⟩ := hstep db tree
            refine ⟨db', tree', ?_⟩
            simp only [hv, hs, ha]
            exact hfin

/-! ## C3: the CTR counter -/

set_option maxHeartbeats 1000000 in
/-- C3: `sbk_open` initialises the counter to the big-endian value of the
first four bytes of the (16-byte) header IV; every encrypted frame read by
`sbk_get_frame` increments the counter by exactly 1, and an
attachment/avatar/sticker file payload increments it by 1 more, the
`sbk_file` handed back recording the intermediate value used to decrypt that
payload; hence iterating over `N` frames of which `M` carry file payloads
(absent 32-bit wraparound) leaves the counter at `initial + N + M`. -/
theorem counter_evolution :
    (∀ (c : Crypto) (file : List Nat) (ctx : SbkCtx), sbk_open c file = .ok ctx →
      ctx.counter = ctx.iv.getD 0 0 <<< 24 ||| ctx.iv.getD 1 0 <<< 16 |||
        ctx.iv.getD 2 0 <<< 8 ||| ctx.iv.getD 3 0 ∧ ctx.iv.length = 16) ∧
    (∀ (c : Crypto) (file : List Nat) (ctx : SbkCtx) (wantFile : Bool)
        (fr : FrameResult) (ctx' : SbkCtx), ctx.firstframe = false →
      sbk_get_frame c file ctx wantFile = .ok (some (fr, ctx')) →
      ctx'.counter = (if sbk_has_file_data fr.frm then
          ((ctx.counter + 1) % 2 ^ 32 + 1) % 2 ^ 32
        else (ctx.counter + 1) % 2 ^ 32) ∧
      (∀ sf, fr.file = some sf → sf.counter = (ctx.counter + 1) % 2 ^ 32)) ∧
    (∀ (c : Crypto) (pre rest : List Nat) (fs : List FrameSpec) (ctx : SbkCtx),
      ctx.pos = pre.length → ctx.firstframe = false → ctx.eof = false →
      Chain c ctx.counter fs →
      ctx.counter + fs.length + payloadCount fs < 2 ^ 32 →
      ∃ ctx', sbk_iterate c (pre ++ (framesBytes c fs ++ rest)) fs.length ctx =
          .ok ctx' ∧
        ctx'.counter = ctx.counter + fs.length + payloadCount fs) := by
  refine ⟨?_, ?_, ?_⟩
  · intro c file ctx h
    unfold sbk_open at h
    dsimp only at h
    split at h
    · exact absurd h (by simp)
    · exact absurd h (by simp)
    · split at h
      · exact absurd h (by simp)
      · split at h
        · exact absurd h (by simp)
        · split at h
          · exact absurd h (by simp)
          · next hlen16 =>
            rw [Except.ok.injEq] at h
            subst h
            exact ⟨rfl, not_ne_iff.mp hlen16⟩
  · intro c file ctx wantFile fr ctx' hff h
    unfold sbk_get_frame at h
    dsimp only at h
    split at h
    · exact absurd h (by simp)
    · split at h
      · exact absurd h (by simp)
      · split at h
        · next hf =>
          rw [hff] at hf
          exact absurd hf (by simp)
        · split at h
          · exact absurd h (by simp)
          · split at h
            · exact absurd h (by simp)
            · split at h
              · exact absurd h (by simp)
              · next frm hunp =>
                split at h
                · next hfd =>
                  split at h
                  · split at h
                    · exact absurd h (by simp)
                    · split at h
                      · exact absurd h (by simp)
                      · rw [Except.ok.injEq, Option.some.injEq, Prod.mk.injEq] at h
                        obtain ⟨h1, h2⟩ := h
                        subst h1 h2
                        refine ⟨by simp [hfd], ?_⟩
                        intro sf hsf
                        rw [Option.some.injEq] at hsf
                        subst hsf
                        rfl
                  · split at h
                    · exact absurd h (by simp)
                    · rw [Except.ok.injEq, Option.some.injEq, Prod.mk.injEq] at h
                      obtain ⟨h1, h2⟩ := h
                      subst h1 h2
                      refine ⟨by simp [hfd], ?_⟩
                      intro sf hsf
                      exact absurd hsf (by simp)
                · next hfd =>
                  rw [Except.ok.injEq, Option.some.injEq, Prod.mk.injEq] at h
                  obtain ⟨h1, h2⟩ := h
                  subst h1 h2
                  refine ⟨by simp [hfd], ?_⟩
                  intro sf hsf
                  exact absurd hsf (by simp)
  · intro c pre rest fs ctx hpos hff heof hch hlt
    refine ⟨⟨pre.length + (framesBytes c fs).length, chainCtr ctx.counter fs,
      ctx.iv, false, false⟩, iterate_chain c rest fs pre ctx hpos hff heof hch, ?_⟩
    exact chainCtr_sum fs ctx.counter hlt

/-- The one-frame demo chain: the version frame is accepted at counter 5. -/
theorem demoChain : Chain demoCrypto 5 [demoVersionFrame] := by
  refine Chain.cons 5 demoVersionFrame
    ⟨none, none, none, none, some ⟨some 1⟩, none, none, none⟩ [] ?_ rfl ?_ (Chain.nil _)
  · unfold FrameOk
    refine ⟨by decide, by decide, by decide, by decide, ?_⟩
    rw [if_neg (by decide)]
    rfl
  · simp [dispatchOk]

/-- Witness for C3: on a concrete backup the header IV `demoIv` yields
initial counter 5; a concrete encrypted end-frame read moves the counter
from 5 to 6; iterating over the one-frame chain `[demoVersionFrame]` leaves
the counter at 5 + 1 + 0. -/
theorem counter_evolution_witness :
    ((⟨0, 5, demoIv, true, false⟩ : SbkCtx).counter =
        demoIv.getD 0 0 <<< 24 ||| demoIv.getD 1 0 <<< 16 |||
          demoIv.getD 2 0 <<< 8 ||| demoIv.getD 3 0 ∧ demoIv.length = 16) ∧
    ((⟨16, 6, demoIv, false, true⟩ : SbkCtx).counter =
        (if sbk_has_file_data (⟨⟨none, none, none, none, none, some true, none, none⟩,
            none⟩ : FrameResult).frm then ((5 + 1) % 2 ^ 32 + 1) % 2 ^ 32
          else (5 + 1) % 2 ^ 32) ∧
      (∀ sf, (⟨⟨none, none, none, none, none, some true, none, none⟩,
          none⟩ : FrameResult).file = some sf → sf.counter = (5 + 1) % 2 ^ 32)) ∧
    (∃ ctx', sbk_iterate demoCrypto (framesBytes demoCrypto [demoVersionFrame]) 1
        ⟨0, 5, demoIv, false, false⟩ = .ok ctx' ∧ ctx'.counter = 6) :=
  ⟨counter_evolution.1 demoCrypto (mkPlainRecord demoHeaderPt)
      ⟨0, 5, demoIv, true, false⟩ (by decide),
   counter_evolution.2.1 demoCrypto
      ([0, 0, 0, 12] ++ [0x30, 0x01] ++ List.replicate 10 49)
      ⟨0, 5, demoIv, false, false⟩ true
      ⟨⟨none, none, none, none, none, some true, none, none⟩, none⟩
      ⟨16, 6, demoIv, false, true⟩ rfl (by decide),
   counter_evolution.2.2 demoCrypto [] [] [demoVersionFrame]
      ⟨0, 5, demoIv, false, false⟩ rfl rfl rfl demoChain (by decide)⟩

/-- One-step unfolding of `createLoop` (stated once so rewriting does not
re-unfold the recursive occurrences). -/
theorem createLoop_succ (c : Crypto) (file : List Nat) (fuel : Nat) (ctx : SbkCtx)
    (db : DbState) (tree : List AttachmentEntry) :
    createLoop c file (fuel + 1) ctx db tree =
      match sbk_get_frame c file ctx true with
      | .error e => .error e
      | .ok none => .ok (db, tree, ctx)
      | .ok (some (fr, ctx')) =>
        match fr.frm.version with
        | some ver =>
          match sbk_set_database_version db ver with
          | .error e => .error e
          | .ok db' => createLoop c file fuel ctx' db' tree
        | none =>
          match fr.frm.statement with
          | some sql =>
            match sbk_exec_statement db sql with
            | .error e => .error e
            | .ok db' => createLoop c file fuel ctx' db' tree
          | none =>
            match fr.frm.attachment with
            | some att =>
              match sbk_insert_attachment_entry tree att fr.file with
              | .error e => .error e
              | .ok tree' => createLoop c file fuel ctx' db tree'
            | none => createLoop c file fuel ctx' db tree := rfl

/-! ## C1: one corrupted ciphertext byte -/

/-- C1 counterexample (to the original claim): `badBackupBytes` is
`goodBackupBytes` with exactly one ciphertext byte of its final encrypted
frame changed (byte 46: 0x30 becomes 0x31); the backup is otherwise valid
(its replay succeeds), yet `sbk_open` does not fail on the corrupted file —
it returns exactly the same context as for the intact one. -/
theorem open_accepts_corruption_counterexample :
    badBackupBytes = goodBackupBytes.set 46 0x31 ∧
    goodBackupBytes.getD 46 0 = 0x30 ∧
    sbk_create_database demoCrypto goodBackupBytes ⟨0, 5, demoIv, true, false⟩ =
      .ok (⟨1, [DbOp.setVersion 1]⟩, [], ⟨58, 7, demoIv, false, true⟩) ∧
    sbk_open demoCrypto badBackupBytes = sbk_open demoCrypto goodBackupBytes ∧
    sbk_open demoCrypto badBackupBytes = .ok ⟨0, 5, demoIv, true, false⟩ :=
  ⟨by decide, by decide, by decide, by decide, by decide⟩

set_option maxHeartbeats 1000000 in
/-- C1 (amended): corrupting exactly one ciphertext byte of a non-first
(encrypted) frame of an otherwise valid backup is NOT detected by
`sbk_open`: the open succeeds, because only the unencrypted header frame is
read before rewinding.  The corruption is detected when the frames are
iterated: `sbk_create_database` fails on that frame with the authentication
error "HMAC mismatch" and yields no database state (the in-memory database
is discarded on the error path). -/
theorem corrupt_ciphertext_detection
    (c : Crypto) (hpt : List Nat) (hfrm : BackupFrame) (hdr : Header)
    (iv : List Nat) (ctr0 : Nat) (fs : List FrameSpec) (f : FrameSpec)
    (ct' : List Nat) (post : List Nat) (i bnew : Nat) (ctx : SbkCtx)
    (hp0 : hpt ≠ []) (hp31 : hpt.length < 2 ^ 31)
    (hunp : signal__backup_frame__unpack hpt = some hfrm)
    (hhd : hfrm.header = some hdr)
    (hnv : hfrm.version = none) (hns : hfrm.statement = none)
    (hna : hfrm.attachment = none)
    (hiv : hdr.iv = some iv) (hivlen : iv.length = 16)
    (hctr0 : ctr0 = iv.getD 0 0 <<< 24 ||| iv.getD 1 0 <<< 16 |||
      iv.getD 2 0 <<< 8 ||| iv.getD 3 0)
    (hchain : Chain c ctr0 fs)
    (hone : i < f.ct.length ∧ bnew ≠ f.ct.getD i 0 ∧ ct' = f.ct.set i bnew)
    (h31 : f.ct.length + 10 < 2 ^ 31) (hct0 : f.ct ≠ [])
    (hmac10 : 10 ≤ (c.hmac f.ct).length)
    (hmacdiff : (c.hmac ct').take 10 ≠ (c.hmac f.ct).take 10)
    (hctr : ctx.counter = ctr0) :
    sbk_open c (mkPlainRecord hpt ++ (framesBytes c fs ++
        (corruptFrameBytes c f ct' ++ post))) = .ok ⟨0, ctr0, iv, true, false⟩ ∧
    sbk_create_database c (mkPlainRecord hpt ++ (framesBytes c fs ++
        (corruptFrameBytes c f ct' ++ post))) ctx = .error "HMAC mismatch" := by
  have hlen' : ct'.length = f.ct.length := by
    rw [hone.2.2]
    exact List.length_set f.ct i bnew
  constructor
  · unfold sbk_open
    simp only [getFrame_first c hpt
      (framesBytes c fs ++ (corruptFrameBytes c f ct' ++ post)) hfrm
      ⟨0, 0, List.replicate 16 0, true, false⟩ false rfl rfl rfl hp0 hp31 hunp,
      hhd, hiv]
    rw [if_neg (by omega : ¬ iv.length ≠ 16), hctr0]
  · unfold sbk_create_database
    rw [createLoop_succ]
    simp only [getFrame_first c hpt
      (framesBytes c fs ++ (corruptFrameBytes c f ct' ++ post)) hfrm
      { ctx with pos := 0, eof := false, firstframe := true } true rfl rfl rfl
      hp0 hp31 hunp, hnv, hns, hna]
    have hcor4 : 4 ≤ (corruptFrameBytes c f ct').length := by
      simp only [corruptFrameBytes, be32, List.length_append, List.length_cons,
        List.length_nil]
      omega
    have hge := framesBytes_len_ge c fs
    obtain ⟨m, hm⟩ : ∃ m, (mkPlainRecord hpt ++ (framesBytes c fs ++
        (corruptFrameBytes c f ct' ++ post))).length = (m + 1) + fs.length := by
      refine ⟨(mkPlainRecord hpt ++ (framesBytes c fs ++
        (corruptFrameBytes c f ct' ++ post))).length - fs.length - 1, ?_⟩
      simp only [List.length_append]
      omega
    rw [hm]
    obtain ⟨db', tree', hrec⟩ := createLoop_chain c
      (corruptFrameBytes c f ct' ++ post) fs (mkPlainRecord hpt)
      ⟨4 + hpt.length, ctx.counter, ctx.iv, false, false⟩ ⟨0, []⟩ [] (m + 1)
      (by
        simp only [mkPlainRecord, be32, List.length_append, List.length_cons,
          List.length_nil]
        try omega)
      rfl rfl
      (by
        show Chain c ctx.counter fs
        rw [hctr]
        exact hchain)
    dsimp only at hrec
    rw [hrec, createLoop_succ]
    rw [show mkPlainRecord hpt ++ (framesBytes c fs ++
        (corruptFrameBytes c f ct' ++ post)) =
      (mkPlainRecord hpt ++ framesBytes c fs) ++ corruptFrameBytes c f ct' ++ post
      from by simp [List.append_assoc]]
    simp only [getFrame_corrupt c (mkPlainRecord hpt ++ framesBytes c fs) post f ct'
      ⟨(mkPlainRecord hpt).length + (framesBytes c fs).length,
       chainCtr ctx.counter fs, ctx.iv, false, false⟩ true
      ((List.length_append _ _).symm) rfl rfl hlen' hct0 h31 hmac10 hmacdiff]

/-- Witness for C1: on the concrete corrupted backup `badBackupBytes`,
`sbk_open` succeeds while the frame replay of `sbk_create_database` fails
with "HMAC mismatch". -/
theorem corrupt_ciphertext_detection_witness :
    sbk_open demoCrypto badBackupBytes = .ok ⟨0, 5, demoIv, true, false⟩ ∧
    sbk_create_database demoCrypto badBackupBytes ⟨0, 5, demoIv, true, false⟩ =
      .error "HMAC mismatch" :=
  corrupt_ciphertext_detection demoCrypto demoHeaderPt
    ⟨some ⟨some demoIv, none⟩, none, none, none, none, none, none, none⟩
    ⟨some demoIv, none⟩ demoIv 5 [demoVersionFrame] demoEndFrame [0x31, 0x01] []
    0 0x31 ⟨0, 5, demoIv, true, false⟩
    (by decide) (by decide) (by decide) rfl rfl rfl rfl rfl (by decide) (by decide)
    demoChain (by decide) (by decide) (by decide) (by decide) (by decide) rfl

end Sigbak
